/-
Verification of the baihu-panel task scheduler against its specification.

The Go source is shallowly embedded: pure helpers become Lean functions,
stateful services become explicit state-passing functions over record types,
database tables become lists of records, and machine integers become Nat/Int
with explicit reduction modulo 2^32 where the source overflows.
-/
import Mathlib

set_option autoImplicit false

namespace Baihu

/-! ## Byte-level utilities shared by the agent embedding

`bytesToHex` mirrors Go `encoding/hex.EncodeToString` (lowercase alphabet);
`strBytes` mirrors the UTF-8 byte view `[]byte(s)` of a Go string. -/

def hexAlphabet : List Char := "0123456789abcdef".data

def hexDigit (n : Nat) : Char := hexAlphabet.getD n '0'

def byteToHex (b : Nat) : List Char := [hexDigit (b / 16 % 16), hexDigit (b % 16)]

def bytesToHex (bs : List Nat) : String :=
  ⟨bs.foldr (fun b acc => byteToHex b ++ acc) []⟩

/-- UTF-8 encoding of a single code point, as Go produces for `[]byte(string)`. -/
def utf8Bytes (c : Nat) : List Nat :=
  if c < 128 then [c]
  else if c < 2048 then
    [192 ||| (c >>> 6), 128 ||| (c &&& 63)]
  else if c < 65536 then
    [224 ||| (c >>> 12), 128 ||| ((c >>> 6) &&& 63), 128 ||| (c &&& 63)]
  else
    [240 ||| (c >>> 18), 128 ||| ((c >>> 12) &&& 63), 128 ||| ((c >>> 6) &&& 63),
      128 ||| (c &&& 63)]

def strBytes (s : String) : List Nat :=
  (s.data.map (fun c => utf8Bytes c.toNat)).flatten

/-! ## SHA-256 (FIPS 180-4), as used by Go `crypto/sha256.Sum256`

Words are Nat reduced modulo `2^32` after every addition, shift and rotation,
exactly where the 32-bit machine arithmetic of the reference implementation
wraps. -/

namespace SHA256

def M32 : Nat := 4294967296

def rotr (n x : Nat) : Nat := ((x >>> n) ||| (x <<< (32 - n))) % M32

def ch (x y z : Nat) : Nat := (x &&& y) ^^^ ((x ^^^ 4294967295) &&& z)

def maj (x y z : Nat) : Nat := (x &&& y) ^^^ (x &&& z) ^^^ (y &&& z)

def bigS0 (x : Nat) : Nat := rotr 2 x ^^^ rotr 13 x ^^^ rotr 22 x

def bigS1 (x : Nat) : Nat := rotr 6 x ^^^ rotr 11 x ^^^ rotr 25 x

def smallS0 (x : Nat) : Nat := rotr 7 x ^^^ rotr 18 x ^^^ (x >>> 3)

def smallS1 (x : Nat) : Nat := rotr 17 x ^^^ rotr 19 x ^^^ (x >>> 10)

def roundK : List Nat :=
  [
    1116352408, 1899447441, 3049323471, 3921009573, 961987163, 1508970993,
    2453635748, 2870763221, 3624381080, 310598401, 607225278, 1426881987,
    1925078388, 2162078206, 2614888103, 3248222580, 3835390401, 4022224774,
    264347078, 604807628, 770255983, 1249150122, 1555081692, 1996064986,
    2554220882, 2821834349, 2952996808, 3210313671, 3336571891, 3584528711,
    113926993, 338241895, 666307205, 773529912, 1294757372, 1396182291,
    1695183700, 1986661051, 2177026350, 2456956037, 2730485921, 2820302411,
    3259730800, 3345764771, 3516065817, 3600352804, 4094571909, 275423344,
    430227734, 506948616, 659060556, 883997877, 958139571, 1322822218,
    1537002063, 1747873779, 1955562222, 2024104815, 2227730452, 2361852424,
    2428436474, 2756734187, 3204031479, 3329325298
  ]

/-- The eight working variables of the compression function. -/
structure Hash8 where
  v0 : Nat
  v1 : Nat
  v2 : Nat
  v3 : Nat
  v4 : Nat
  v5 : Nat
  v6 : Nat
  v7 : Nat
deriving Repr, DecidableEq

def initH : Hash8 :=
  ⟨1779033703, 3144134277, 1013904242, 2773480762,
   1359893119, 2600822924, 528734635, 1541459225⟩

/-- Length padding: append `0x80`, zeros and the 64-bit big-endian bit length. -/
def padMessage (msg : List Nat) : List Nat :=
  let L := msg.length
  let z := (119 - L % 64) % 64
  let bitLen := 8 * L
  msg ++ [128] ++ List.replicate z 0 ++
    [(bitLen >>> 56) % 256, (bitLen >>> 48) % 256, (bitLen >>> 40) % 256,
     (bitLen >>> 32) % 256, (bitLen >>> 24) % 256, (bitLen >>> 16) % 256,
     (bitLen >>> 8) % 256, bitLen % 256]

/-- Big-endian 32-bit words of a byte stream. -/
def bytesToWords : List Nat → List Nat
  | b0 :: b1 :: b2 :: b3 :: rest =>
      (b3 ||| (b2 <<< 8) ||| (b1 <<< 16) ||| (b0 <<< 24)) :: bytesToWords rest
  | _ => []

/-- Split a word stream into 16-word blocks. -/
def chunk16 : List Nat → List (List Nat)
  | w0 :: w1 :: w2 :: w3 :: w4 :: w5 :: w6 :: w7 ::
    w8 :: w9 :: w10 :: w11 :: w12 :: w13 :: w14 :: w15 :: rest =>
      [w0, w1, w2, w3, w4, w5, w6, w7, w8, w9, w10, w11, w12, w13, w14, w15] ::
        chunk16 rest
  | _ => []

/-- Message-schedule expansion of one block to 64 words. -/
def schedule (w16 : List Nat) : List Nat :=
  let full := (List.range 48).foldl
    (fun (arr : Array Nat) i =>
      let t := i + 16
      arr.push ((smallS1 (arr.getD (t - 2) 0) + arr.getD (t - 7) 0 +
        smallS0 (arr.getD (t - 15) 0) + arr.getD (t - 16) 0) % M32))
    w16.toArray
  full.toList

def compressWord (kt wt : Nat) (s : Hash8) : Hash8 :=
  let t1 := (s.v7 + bigS1 s.v4 + ch s.v4 s.v5 s.v6 + kt + wt) % M32
  let t2 := (bigS0 s.v0 + maj s.v0 s.v1 s.v2) % M32
  ⟨(t1 + t2) % M32, s.v0, s.v1, s.v2, (s.v3 + t1) % M32, s.v4, s.v5, s.v6⟩

def processBlock (h : Hash8) (w16 : List Nat) : Hash8 :=
  let s := (roundK.zip (schedule w16)).foldl (fun st p => compressWord p.1 p.2 st) h
  ⟨(h.v0 + s.v0) % M32, (h.v1 + s.v1) % M32, (h.v2 + s.v2) % M32,
   (h.v3 + s.v3) % M32, (h.v4 + s.v4) % M32, (h.v5 + s.v5) % M32,
   (h.v6 + s.v6) % M32, (h.v7 + s.v7) % M32⟩

def wordBytes (w : Nat) : List Nat :=
  [(w >>> 24) % 256, (w >>> 16) % 256, (w >>> 8) % 256, w % 256]

/-- SHA-256 digest (32 bytes) of a byte stream. -/
def sha256Bytes (msg : List Nat) : List Nat :=
  let h := (chunk16 (bytesToWords (padMessage msg))).foldl processBlock initH
  wordBytes h.v0 ++ wordBytes h.v1 ++ wordBytes h.v2 ++ wordBytes h.v3 ++
    wordBytes h.v4 ++ wordBytes h.v5 ++ wordBytes h.v6 ++ wordBytes h.v7

end SHA256

/-- `hex.EncodeToString(sha256.Sum256([]byte(s)))`, the shape used by
`generateMachineID`. -/
def sha256Hex (s : String) : String := bytesToHex (SHA256.sha256Bytes (strBytes s))

/-! ## Machine identity (src/agent/agent.go, `generateMachineID`) -/

/-- The slice of `net.Interface` facts that `generateMachineID` consumes:
interface name, textual MAC address (empty when the interface has no
hardware address) and the loopback flag. -/
structure NetInterface where
  name : String
  mac : String
  loopback : Bool
deriving Repr, DecidableEq

/-- Go `strings.HasPrefix`, expressed on the character lists so that it
evaluates by kernel reduction. -/
def strStartsWith (s pre : String) : Bool := pre.data.isPrefixOf s.data

/-- Go `strings.ToLower` (ASCII case folding on each character). -/
def strToLower (s : String) : String := ⟨s.data.map Char.toLower⟩

/-- The virtual-interface name filter of `generateMachineID`:
`docker*`, `veth*`, `br-*`, `virbr*` (on the lowercased name). -/
def isVirtualIface (name : String) : Bool :=
  let n := strToLower name
  strStartsWith n "docker" || strStartsWith n "veth" || strStartsWith n "br-" ||
    strStartsWith n "virbr"

/-- MAC addresses surviving the loop body filter: not loopback, non-empty
hardware address, not a virtual interface. -/
def candidateMacs (ifaces : List NetInterface) : List String :=
  (ifaces.filter
    (fun i => !i.loopback && i.mac != "" && !(isVirtualIface i.name))).map
    (fun i => i.mac)

/-- `strings.Join(parts, "|")`. -/
def joinBar : List String → String
  | [] => ""
  | [x] => x
  | x :: y :: rest => x ++ "|" ++ joinBar (y :: rest)

/-- The `parts` list assembled by `generateMachineID`: optional hostname,
then the first (smallest) sorted surviving MAC when one exists, then GOOS
and GOARCH. `sort.Strings` is modelled by `List.insertionSort (· ≤ ·)`. -/
def machineParts (hostname : Option String) (ifaces : List NetInterface)
    (goos goarch : String) : List String :=
  let base : List String := match hostname with
    | some h => [h]
    | none => []
  let macs := List.insertionSort (· ≤ ·) (candidateMacs ifaces)
  let withMac := match macs.head? with
    | some m => base ++ [m]
    | none => base
  withMac ++ [goos, goarch]

/-- `generateMachineID` from src/agent/agent.go: join the parts with `|`,
SHA-256, lowercase hex. -/
def generateMachineID (hostname : Option String) (ifaces : List NetInterface)
    (goos goarch : String) : String :=
  sha256Hex (joinBar (machineParts hostname ifaces goos goarch))

/-! ### Facts about the hex encoding and the machine identity -/

theorem hexDigit_mem : ∀ n, n < 16 → hexDigit n ∈ hexAlphabet := by decide

theorem byteToHex_mem (b : Nat) : ∀ c ∈ byteToHex b, c ∈ hexAlphabet := by
  intro c hc
  simp only [byteToHex, List.mem_cons, List.not_mem_nil, or_false] at hc
  rcases hc with h | h <;> subst h <;>
    exact hexDigit_mem _ (Nat.mod_lt _ (by omega))

theorem bytesToHex_mem (bs : List Nat) :
    ∀ c ∈ (bytesToHex bs).data, c ∈ hexAlphabet := by
  induction bs with
  | nil => intro c hc; simp [bytesToHex] at hc
  | cons b rest ih =>
    intro c hc
    simp only [bytesToHex, List.foldr_cons, List.mem_append] at hc
    rcases hc with h | h
    · exact byteToHex_mem b c h
    · exact ih c h

theorem bytesToHex_length (bs : List Nat) :
    (bytesToHex bs).length = 2 * bs.length := by
  induction bs with
  | nil => rfl
  | cons b rest ih =>
    simp only [bytesToHex, String.length, List.foldr_cons, List.length_append,
      byteToHex, List.length_cons, List.length_nil] at ih ⊢
    omega

theorem sha256Bytes_length (msg : List Nat) :
    (SHA256.sha256Bytes msg).length = 32 := by
  simp [SHA256.sha256Bytes, SHA256.wordBytes]

theorem sha256Hex_length (s : String) : (sha256Hex s).length = 64 := by
  rw [sha256Hex, bytesToHex_length, sha256Bytes_length]

theorem strAppend_assoc (a b c : String) : a ++ b ++ c = a ++ (b ++ c) :=
  String.append_assoc a b c

/-- Head of the insertion sort of a list of strings is its minimum. -/
theorem sorted_head_min {L rest : List String} {m : String}
    (h : List.insertionSort (· ≤ ·) L = m :: rest) :
    m ∈ L ∧ ∀ x ∈ L, m ≤ x := by
  have hs : List.Sorted (· ≤ ·) (List.insertionSort (· ≤ ·) L) :=
    List.sorted_insertionSort (· ≤ ·) L
  rw [h] at hs
  constructor
  · have : m ∈ List.insertionSort (· ≤ ·) L := by rw [h]; exact List.mem_cons_self m rest
    exact (List.mem_insertionSort (· ≤ ·)).mp this
  · intro x hx
    have : x ∈ List.insertionSort (· ≤ ·) L := (List.mem_insertionSort (· ≤ ·)).mpr hx
    rw [h] at this
    rcases List.mem_cons.mp this with rfl | hxr
    · exact le_refl x
    · exact List.rel_of_sorted_cons hs x hxr

/-- C7: generateMachineID yields the lowercase hex SHA-256 of
hostname, the lexicographically smallest surviving (non-loopback,
non-virtual, MAC-bearing) interface MAC, the OS name and the architecture
joined with the bar separator; the output is 64 lowercase hex characters and
depends only on the multiset of surviving MACs (hence byte-identical for a
fixed host across invocations and interface enumeration orders). -/
theorem c7_machine_id (hostname : Option String) (ifaces : List NetInterface)
    (goos goarch h : String) (hh : hostname = some h)
    (hne : candidateMacs ifaces ≠ []) :
    ∃ m, m ∈ candidateMacs ifaces ∧ (∀ x ∈ candidateMacs ifaces, m ≤ x) ∧
      generateMachineID hostname ifaces goos goarch =
        sha256Hex (h ++ "|" ++ m ++ "|" ++ goos ++ "|" ++ goarch) ∧
      (generateMachineID hostname ifaces goos goarch).length = 64 ∧
      (∀ c ∈ (generateMachineID hostname ifaces goos goarch).data,
        c ∈ hexAlphabet) ∧
      (∀ ifaces2, List.Perm (candidateMacs ifaces2) (candidateMacs ifaces) →
        generateMachineID hostname ifaces2 goos goarch =
          generateMachineID hostname ifaces goos goarch) := by
  subst hh
  obtain ⟨m, rest, hsort⟩ : ∃ m rest,
      List.insertionSort (· ≤ ·) (candidateMacs ifaces) = m :: rest := by
    cases hsrt : List.insertionSort (· ≤ ·) (candidateMacs ifaces) with
    | nil =>
      exfalso
      have := List.perm_insertionSort (· ≤ ·) (candidateMacs ifaces)
      rw [hsrt] at this
      exact hne (this.nil_eq).symm
    | cons a l => exact ⟨a, l, rfl⟩
  obtain ⟨hmem, hmin⟩ := sorted_head_min hsort
  refine ⟨m, hmem, hmin, ?_, sha256Hex_length _, ?_, ?_⟩
  · have hparts : machineParts (some h) ifaces goos goarch = [h, m, goos, goarch] := by
      simp only [machineParts]
      rw [hsort]
      rfl
    rw [generateMachineID, hparts]
    have hjoin : joinBar [h, m, goos, goarch] =
        h ++ "|" ++ m ++ "|" ++ goos ++ "|" ++ goarch := by
      simp [joinBar, strAppend_assoc]
    rw [hjoin]
  · intro c hc
    rw [generateMachineID, sha256Hex] at hc
    exact bytesToHex_mem _ c hc
  · intro ifaces2 hperm
    have h1 : List.Sorted (· ≤ ·)
        (List.insertionSort (· ≤ ·) (candidateMacs ifaces2)) :=
      List.sorted_insertionSort _ _
    have h2 : List.Sorted (· ≤ ·)
        (List.insertionSort (· ≤ ·) (candidateMacs ifaces)) :=
      List.sorted_insertionSort _ _
    have hsorteq : List.insertionSort (· ≤ ·) (candidateMacs ifaces2) =
        List.insertionSort (· ≤ ·) (candidateMacs ifaces) :=
      List.eq_of_perm_of_sorted
        (((List.perm_insertionSort _ _).trans hperm).trans
          (List.perm_insertionSort _ _).symm) h1 h2
    simp only [generateMachineID, machineParts, hsorteq]

/-- Concrete interface list for the C7 witness: loopback, docker and an
addressless interface are filtered out; two real MACs remain. -/
def c7Ifaces : List NetInterface :=
  [⟨"lo", "", true⟩, ⟨"docker0", "02:42:ac:11:00:01", false⟩,
   ⟨"eth1", "ee:bb:cc:00:11:22", false⟩, ⟨"eth0", "aa:bb:cc:00:11:22", false⟩,
   ⟨"tun0", "", false⟩]

theorem c7_witness :
    (some "host1" = some "host1") ∧ candidateMacs c7Ifaces ≠ [] ∧
    (∃ m, m ∈ candidateMacs c7Ifaces ∧ (∀ x ∈ candidateMacs c7Ifaces, m ≤ x) ∧
      generateMachineID (some "host1") c7Ifaces "linux" "amd64" =
        sha256Hex ("host1" ++ "|" ++ m ++ "|" ++ "linux" ++ "|" ++ "amd64") ∧
      (generateMachineID (some "host1") c7Ifaces "linux" "amd64").length = 64 ∧
      (∀ c ∈ (generateMachineID (some "host1") c7Ifaces "linux" "amd64").data,
        c ∈ hexAlphabet) ∧
      (∀ ifaces2, List.Perm (candidateMacs ifaces2) (candidateMacs c7Ifaces) →
        generateMachineID (some "host1") ifaces2 "linux" "amd64" =
          generateMachineID (some "host1") c7Ifaces "linux" "amd64")) :=
  ⟨rfl, by decide,
    c7_machine_id (some "host1") c7Ifaces "linux" "amd64" "host1" rfl (by decide)⟩

/-! ## Execution output assembly (C8)

Three code paths record a textual output for an execution:
`ExecuteCommandWithOptions` + `saveTaskLogCallback`
(src/internal/services/executor_service.go), `executeLocal`
(src/internal/services/tasks/task_execution_service.go) and
`Agent.executeTask` (src/agent/agent.go). -/

/-- The fixed message stored on a deadline-exceeded run
(`"执行超时"` in `ExecuteCommandWithOptions`). -/
def timeoutMsg : String := "执行超时"

/-- The `Error` field assembled by `ExecuteCommandWithOptions`: the timeout
message or the Go error text, a newline, then the captured stderr. On
success the field stays empty. -/
def execErrorField (failed timedOut : Bool) (errMsg stderr : String) : String :=
  if failed then
    (if timedOut then timeoutMsg else errMsg) ++ "\n" ++ stderr
  else ""

/-- `saveTaskLogCallback` output assembly: when `Error` is non-empty the
marker and the whole `Error` field are appended to the captured stdout. -/
def saveTaskLogOutput (stdout errField : String) : String :=
  if errField = "" then stdout else stdout ++ "\n[ERROR]\n" ++ errField

/-- `executeLocal` output assembly: on failure stdout, the marker, the
captured stderr, a newline and the Go error text. -/
def executeLocalOutput (failed : Bool) (stdout stderr errMsg : String) : String :=
  if failed then stdout ++ "\n[ERROR]\n" ++ stderr ++ "\n" ++ errMsg else stdout

/-- `Agent.executeTask` output assembly (same shape as `executeLocal`). -/
def agentExecuteOutput (failed : Bool) (stdout stderr errMsg : String) : String :=
  if failed then stdout ++ "\n[ERROR]\n" ++ stderr ++ "\n" ++ errMsg else stdout

theorem newline_stderr_ne_empty (x stderr : String) :
    x ++ "\n" ++ stderr ≠ "" := by
  intro h
  have hl := congrArg String.length h
  rw [String.length_append, String.length_append] at hl
  have h1 : ("\n").length = 1 := rfl
  have h0 : ("" : String).length = 0 := rfl
  omega

/-- C8 (counterexample): for the legacy executor-service pipeline the claim
fails: a failed run with stdout `out`, stderr `err` and error message `boom`
records `out\n[ERROR]\nboom\nerr` — error message before stderr — which is
not the claimed `stdout ++ marker ++ stderr ++ error-message` form. -/
theorem c8_counterexample :
    saveTaskLogOutput "out" (execErrorField true false "boom" "err") =
      "out" ++ "\n[ERROR]\n" ++ "boom" ++ "\n" ++ "err" ∧
    saveTaskLogOutput "out" (execErrorField true false "boom" "err") ≠
      "out" ++ "\n[ERROR]\n" ++ "err" ++ "\n" ++ "boom" := by
  constructor
  · rfl
  · decide

/-- C8 (amended): a successful execution records the captured stdout alone on
all three paths; a failed execution records
`stdout ++ "\n[ERROR]\n" ++ stderr ++ "\n" ++ error-message` in the unified
local executor (`executeLocal`) and in the agent-side executor, while the
legacy executor-service pipeline (`ExecuteCommandWithOptions` +
`saveTaskLogCallback`) records `stdout ++ "\n[ERROR]\n" ++ error-message ++
"\n" ++ stderr` (with the fixed timeout message in place of the error text
when the run timed out). -/
theorem c8_output_formats (stdout stderr errMsg : String) :
    executeLocalOutput false stdout stderr errMsg = stdout ∧
    agentExecuteOutput false stdout stderr errMsg = stdout ∧
    saveTaskLogOutput stdout (execErrorField false false errMsg stderr) = stdout ∧
    executeLocalOutput true stdout stderr errMsg =
      stdout ++ "\n[ERROR]\n" ++ stderr ++ "\n" ++ errMsg ∧
    agentExecuteOutput true stdout stderr errMsg =
      stdout ++ "\n[ERROR]\n" ++ stderr ++ "\n" ++ errMsg ∧
    saveTaskLogOutput stdout (execErrorField true false errMsg stderr) =
      stdout ++ "\n[ERROR]\n" ++ (errMsg ++ "\n" ++ stderr) ∧
    saveTaskLogOutput stdout (execErrorField true true errMsg stderr) =
      stdout ++ "\n[ERROR]\n" ++ (timeoutMsg ++ "\n" ++ stderr) := by
  refine ⟨rfl, rfl, rfl, rfl, rfl, ?_, ?_⟩
  · show (if errMsg ++ "\n" ++ stderr = "" then stdout
      else stdout ++ "\n[ERROR]\n" ++ (errMsg ++ "\n" ++ stderr)) = _
    rw [if_neg (newline_stderr_ne_empty errMsg stderr)]
  · show (if timeoutMsg ++ "\n" ++ stderr = "" then stdout
      else stdout ++ "\n[ERROR]\n" ++ (timeoutMsg ++ "\n" ++ stderr)) = _
    rw [if_neg (newline_stderr_ne_empty timeoutMsg stderr)]

/-! ## Dispatch queue (C5): `ExecutorService.EnqueueTask`

The bounded channel `taskQueue` is modelled by its buffer contents plus its
capacity; a worker (`worker` in part_005 / executor_service.go) draws one
rate-limiter token before `executeTaskInternal`, while the full-queue
fallback runs `go es.executeTaskInternal(taskID)` with no token draw. -/

/-- Result of one `EnqueueTask` call. `executedNow` is the detached
fallback execution, `warned` the warning log accompanying it. -/
structure EnqueueResult where
  queue : List Nat
  executedNow : Bool
  warned : Bool
deriving DecidableEq, Repr

/-- Rate-limiter tokens drawn before `executeTaskInternal` on the worker
path (one `<-es.rateLimiter` per job). -/
def workerRunTokens : Nat := 1

/-- Rate-limiter tokens drawn on the detached fallback path (none). -/
def directRunTokens : Nat := 0

/-- `EnqueueTask`: non-blocking channel send with a direct-execution
default branch. -/
def enqueueTask (cap : Nat) (queue : List Nat) (taskId : Nat) : EnqueueResult :=
  if queue.length < cap then ⟨queue ++ [taskId], false, false⟩
  else ⟨queue, true, true⟩

/-- C5: with free queue space the fire is appended to the buffer (to be run
by a worker that first draws a rate token); with a full queue the fire is
still executed, immediately and with no rate-limiter token, and a warning
is logged. In either case the fire is never dropped: it is either in the
queue afterwards or was executed directly. -/
theorem c5_enqueue_never_drops (cap : Nat) (queue : List Nat) (taskId : Nat) :
    (queue.length < cap →
      enqueueTask cap queue taskId = ⟨queue ++ [taskId], false, false⟩) ∧
    (cap ≤ queue.length →
      enqueueTask cap queue taskId = ⟨queue, true, true⟩ ∧
        directRunTokens = 0 ∧ workerRunTokens = 1) ∧
    (taskId ∈ (enqueueTask cap queue taskId).queue ∨
      (enqueueTask cap queue taskId).executedNow = true) := by
  refine ⟨fun h => by rw [enqueueTask, if_pos h], fun h => ?_, ?_⟩
  · rw [enqueueTask, if_neg (by omega)]
    exact ⟨rfl, rfl, rfl⟩
  · by_cases h : queue.length < cap
    · left
      rw [enqueueTask, if_pos h]
      simp
    · right
      rw [enqueueTask, if_neg h]

theorem c5_witness :
    ((2 : Nat) ≤ ([5, 9].length) →
      enqueueTask 2 [5, 9] 7 = ⟨[5, 9], true, true⟩ ∧
        directRunTokens = 0 ∧ workerRunTokens = 1) ∧
    (([] : List Nat).length < 2 → enqueueTask 2 [] 7 = ⟨[7], false, false⟩) ∧
    (2 ≤ ([5, 9].length) ∧ ([] : List Nat).length < 2) :=
  ⟨(c5_enqueue_never_drops 2 [5, 9] 7).2.1,
    (c5_enqueue_never_drops 2 [] 7).1, by decide, by decide⟩

/-! ## Persistent records (src/internal/models/task.go, part_007 models)

Timestamps are Nat (seconds); `LocalTime` pointers become `Option Nat`. -/

/-- `models.CleanConfig`: retention policy tag and bound. -/
structure CleanConfig where
  type : String
  keep : Int
deriving DecidableEq, Repr

/-- `models.Task` (the fields the verified operations read).
`cleanConfig = none` models an empty or unparsable `clean_config` column,
on which `cleanLogsCallback` returns early. -/
structure Task where
  id : Nat
  name : String
  command : String
  schedule : String
  timeout : Int
  workDir : String
  cleanConfig : Option CleanConfig
  envs : String
  agentId : Option Nat
  enabled : Bool
  lastRun : Option Nat
deriving DecidableEq, Repr

/-- `models.TaskLog`. -/
structure TaskLog where
  id : Nat
  taskId : Nat
  agentId : Option Nat
  command : String
  output : String
  status : String
  duration : Int
  exitCode : Int
  startTime : Option Nat
  endTime : Option Nat
  createdAt : Nat
deriving DecidableEq, Repr

/-! ## Log retention (C3): `cleanLogsCallback`, `case "count"`

`ORDER BY id DESC OFFSET keep-1 LIMIT 1` is modelled by indexing the
descending sort of the task's log ids; `DELETE WHERE task_id = ? AND
id < boundary` by a list filter. -/

/-- The rows `WHERE task_id = ?`. -/
def logsForTask (logs : List TaskLog) (taskId : Nat) : List TaskLog :=
  logs.filter (fun l => l.taskId == taskId)

/-- `ORDER BY id DESC` on a list of ids. -/
def sortDesc (ids : List Nat) : List Nat :=
  (List.insertionSort (· ≤ ·) ids).reverse

/-- The id of the k-th most recent log of the task (`Offset(keep-1)`,
`Limit(1)`, `First`); `none` models the `First` lookup error on which the
callback deletes nothing. -/
def boundaryLogId (logs : List TaskLog) (taskId : Nat) (keep : Int) : Option Nat :=
  (sortDesc ((logsForTask logs taskId).map (fun l => l.id)))[(keep - 1).toNat]?

/-- `case "count"` of `cleanLogsCallback`: delete the task's logs with
`id <` the boundary id. -/
def cleanLogsByCount (taskId : Nat) (keep : Int) (logs : List TaskLog) :
    List TaskLog :=
  match boundaryLogId logs taskId keep with
  | none => logs
  | some b => logs.filter (fun l => !(l.taskId == taskId && decide (l.id < b)))

/-- `case "day"` of `cleanLogsCallback`: delete the task's logs created
before `now - keep` days (days scaled to seconds). -/
def cleanLogsByAge (taskId : Nat) (cutoff : Nat) (logs : List TaskLog) :
    List TaskLog :=
  logs.filter (fun l => !(l.taskId == taskId && decide (l.createdAt < cutoff)))

/-- `cleanLogsCallback`: no task row, no parsable config or `keep ≤ 0`
mean no deletion; otherwise dispatch on the config type. -/
def cleanLogsCallback (tasks : List Task) (now : Nat) (taskId : Nat)
    (logs : List TaskLog) : List TaskLog :=
  match tasks.find? (fun t => t.id == taskId) with
  | none => logs
  | some t =>
    match t.cleanConfig with
    | none => logs
    | some cfg =>
      if cfg.keep ≤ 0 then logs
      else if cfg.type == "day" then
        cleanLogsByAge taskId (now - cfg.keep.toNat * 86400) logs
      else if cfg.type == "count" then cleanLogsByCount taskId cfg.keep logs
      else logs

theorem sortDesc_perm (ids : List Nat) : List.Perm (sortDesc ids) ids :=
  (List.reverse_perm _).trans (List.perm_insertionSort _ _)

theorem sortDesc_length (ids : List Nat) : (sortDesc ids).length = ids.length :=
  (sortDesc_perm ids).length_eq

theorem sortDesc_strict {ids : List Nat} (h : ids.Nodup) :
    (sortDesc ids).Pairwise (· > ·) := by
  have hsorted : List.Sorted (· ≤ ·) (List.insertionSort (· ≤ ·) ids) :=
    List.sorted_insertionSort _ _
  have hge : (sortDesc ids).Pairwise (· ≥ ·) := by
    rw [sortDesc, List.pairwise_reverse]
    exact hsorted.imp (fun hab => hab)
  have hnd : (sortDesc ids).Nodup := ((sortDesc_perm ids).nodup_iff).mpr h
  exact (hge.and hnd).imp (fun hab => lt_of_le_of_ne hab.1 (Ne.symm hab.2))

/-- In a strictly descending list, the elements `≥` the one at index `i`
are exactly the first `i + 1`. -/
theorem strict_filter_ge_take :
    ∀ (s : List Nat), s.Pairwise (· > ·) →
      ∀ (i b : Nat), s[i]? = some b →
        s.filter (fun x => !(decide (x < b))) = s.take (i + 1) := by
  intro s hs
  induction s with
  | nil => intro i b hb; simp at hb
  | cons a t ih =>
    intro i b hb
    obtain ⟨hhead, htail⟩ := List.pairwise_cons.mp hs
    match i with
    | 0 =>
      have hab : a = b := by simpa using hb
      subst hab
      have ht : t.filter (fun x => !(decide (x < a))) = [] := by
        rw [List.filter_eq_nil_iff]
        intro x hx
        have : a > x := hhead x hx
        simp
        omega
      rw [List.filter_cons, List.take_succ_cons, List.take_zero]
      simp [ht]
    | j + 1 =>
      have hb' : t[j]? = some b := by simpa using hb
      have hmem : b ∈ t := List.getElem?_mem hb'
      have hba : b < a := hhead b hmem
      have hcond : (!(decide (a < b))) = true := by simp; omega
      rw [List.filter_cons, List.take_succ_cons, if_pos hcond, ih htail j b hb']

theorem map_filter_comm {α β : Type} (f : α → β) (p : β → Bool) (l : List α) :
    (l.filter (fun x => p (f x))).map f = (l.map f).filter p := by
  induction l with
  | nil => rfl
  | cons a t ih =>
    by_cases h : p (f a) <;> simp [List.filter_cons, h, ih]

/-- C3: for a task with a by-count policy and `keep = N ≥ 1`, once at least
`N` logs exist for the task, running the retention callback leaves exactly
`N` logs for the task, every log of another task is untouched, no log is
invented, and every deleted log has a smaller id than every surviving log
of the task — so exactly the `N` highest-id (most recent) logs remain. -/
theorem c3_retention_by_count (logs : List TaskLog) (taskId : Nat) (keep : Int)
    (hkeep : 1 ≤ keep)
    (hnodup : ((logsForTask logs taskId).map (fun l => l.id)).Nodup)
    (hcount : keep.toNat ≤ (logsForTask logs taskId).length) :
    (logsForTask (cleanLogsByCount taskId keep logs) taskId).length =
      keep.toNat ∧
    (∀ l ∈ logs, l.taskId ≠ taskId → l ∈ cleanLogsByCount taskId keep logs) ∧
    (∀ l ∈ cleanLogsByCount taskId keep logs, l ∈ logs) ∧
    (∀ l ∈ cleanLogsByCount taskId keep logs, l.taskId = taskId →
      ∀ m ∈ logs, m ∉ cleanLogsByCount taskId keep logs → m.id < l.id) := by
  classical
  set ids := (logsForTask logs taskId).map (fun l => l.id) with hids
  have hlen : keep.toNat ≤ (sortDesc ids).length := by
    rw [sortDesc_length, hids, List.length_map]
    exact hcount
  have hidx : (keep - 1).toNat < (sortDesc ids).length := by omega
  obtain ⟨b, hb⟩ : ∃ b, (sortDesc ids)[(keep - 1).toNat]? = some b :=
    ⟨(sortDesc ids)[(keep - 1).toNat], List.getElem?_eq_getElem hidx⟩
  have hbd : boundaryLogId logs taskId keep = some b := hb
  have hclean : cleanLogsByCount taskId keep logs =
      logs.filter (fun l => !(l.taskId == taskId && decide (l.id < b))) := by
    rw [cleanLogsByCount, hbd]
  refine ⟨?_, ?_, ?_, ?_⟩
  · -- survivor count for the task
    have hsplit : logsForTask (cleanLogsByCount taskId keep logs) taskId =
        (logsForTask logs taskId).filter (fun l => !(decide (l.id < b))) := by
      rw [hclean, logsForTask, logsForTask, List.filter_filter,
        List.filter_filter]
      apply List.filter_congr
      intro l _
      cases hl : (l.taskId == taskId) <;> cases hd : (decide (l.id < b)) <;>
        simp [hl, hd]
    rw [hsplit, ← List.length_map _ (fun l => l.id),
      map_filter_comm (fun l : TaskLog => l.id) (fun x => !(decide (x < b)))]
    have hperm : List.Perm (ids.filter (fun x => !(decide (x < b))))
        ((sortDesc ids).filter (fun x => !(decide (x < b)))) :=
      ((sortDesc_perm ids).filter _).symm
    rw [← hids, hperm.length_eq,
      strict_filter_ge_take (sortDesc ids) (sortDesc_strict hnodup)
        ((keep - 1).toNat) b hb, List.length_take]
    omega
  · intro l hl hne
    rw [hclean, List.mem_filter]
    refine ⟨hl, ?_⟩
    have : (l.taskId == taskId) = false := by
      simp [hne]
    simp [this]
  · intro l hl
    rw [hclean] at hl
    exact (List.mem_filter.mp hl).1
  · intro l hl hleq m hm hmout
    rw [hclean] at hl hmout
    have hlkeep := (List.mem_filter.mp hl).2
    have hmdrop : ¬ ((!(m.taskId == taskId && decide (m.id < b))) = true) :=
      fun hk => hmout (List.mem_filter.mpr ⟨hm, hk⟩)
    have hmand : (m.taskId == taskId && decide (m.id < b)) = true := by
      by_contra hfalse
      apply hmdrop
      cases hx : (m.taskId == taskId && decide (m.id < b))
      · rfl
      · exact absurd hx hfalse
    have hmlt : m.id < b :=
      of_decide_eq_true ((Bool.and_eq_true _ _).mp hmand).2
    have hlge : ¬ l.id < b := by
      have : (l.taskId == taskId) = true := by simp [hleq]
      cases hd : (decide (l.id < b))
      · exact of_decide_eq_false hd
      · rw [this, hd] at hlkeep
        simp at hlkeep
    omega

/-- The claim's S4 scenario: five sequential runs of task 1 under a
by-count keep-3 policy; each run appends a log with the next id and then
runs the by-count retention. -/
def c3Scenario (runs : Nat) : List TaskLog :=
  ((List.range runs).foldl
    (fun (st : List TaskLog × Nat) _ =>
      let lg : TaskLog :=
        { id := st.2, taskId := 1, agentId := none, command := "c",
          output := "", status := "success", duration := 0, exitCode := 0,
          startTime := none, endTime := none, createdAt := 0 }
      (cleanLogsByCount 1 3 (st.1 ++ [lg]), st.2 + 1))
    ([], 1)).1

def c3FifthLog : TaskLog :=
  { id := 5, taskId := 1, agentId := none, command := "c", output := "",
    status := "success", duration := 0, exitCode := 0, startTime := none,
    endTime := none, createdAt := 0 }

theorem c3_witness :
    (c3Scenario 5).map (fun l => l.id) = [3, 4, 5] ∧
    ((1 : Int) ≤ 3 ∧
      ((logsForTask (c3Scenario 4 ++ [c3FifthLog]) 1).map
        (fun l => l.id)).Nodup ∧
      (3 : Int).toNat ≤ (logsForTask (c3Scenario 4 ++ [c3FifthLog]) 1).length) ∧
    (logsForTask (cleanLogsByCount 1 3 (c3Scenario 4 ++ [c3FifthLog])) 1).length =
      (3 : Int).toNat :=
  ⟨by decide, ⟨by decide, by decide, by decide⟩,
    (c3_retention_by_count (c3Scenario 4 ++ [c3FifthLog]) 1 3 (by decide)
      (by decide) (by decide)).1⟩

/-! ## Agent WebSocket manager (part_006, `AgentWSManager`)

Go maps become Lean functions (`none` / `0` model absent keys); the
connection map is an association list keyed by agent id; the buffered send
channel is the list of frames it holds, bounded by its capacity 256. -/

/-- `heartbeat_ack` payload. -/
structure HeartbeatAck where
  agentId : Nat
  name : String
  needUpdate : Bool
  forceUpdate : Bool
  latestVersion : String
deriving DecidableEq, Repr

/-- A frame placed on a connection's send channel (already marshalled in
the source; kept structured here). -/
inductive WSFrame where
  | connected (agentId : Nat) (name : String) (isNewAgent : Bool)
      (machineId : String)
  | heartbeatAck (ack : HeartbeatAck)
  | other (type : String) (payload : String)
deriving DecidableEq, Repr

/-- `AgentConnection`: bound agent, source ip, send channel contents,
last-ping time, closed flag. -/
structure AgentConnection where
  agentId : Nat
  ip : String
  send : List WSFrame
  lastPing : Int
  closed : Bool
deriving DecidableEq, Repr

/-- Capacity of the send channel (`make(chan []byte, 256)`). -/
def sendBufferCap : Nat := 256

/-- Rate-limit configuration constants of part_006 (durations in seconds). -/
def maxConnectionsPerIP : Nat := 10

def minConnectIntervalSec : Int := 5

def maxFailCount : Nat := 5

def failBlockDurationSec : Int := 300

/-- `AgentWSManager`: connection map plus the three per-ip rate-limit maps. -/
structure AgentWSManager where
  connections : List (Nat × AgentConnection)
  ipConnections : String → Nat
  ipLastAttempt : String → Option Int
  ipFailCount : String → Option Nat

/-- The manager freshly created by `GetAgentWSManager`. -/
def emptyWSManager : AgentWSManager :=
  ⟨[], fun _ => 0, fun _ => none, fun _ => none⟩

def getConnection (m : AgentWSManager) (agentId : Nat) : Option AgentConnection :=
  (m.connections.find? (fun p => p.1 == agentId)).map (fun p => p.2)

/-- `SendToAgent`: missing connection returns nil without sending; a full
send buffer drops the frame and still returns nil; otherwise the frame is
enqueued. The `Option String` is the returned Go error. -/
def sendToAgent (m : AgentWSManager) (agentId : Nat) (frame : WSFrame) :
    AgentWSManager × Option String :=
  match getConnection m agentId with
  | none => (m, none)
  | some conn =>
    if conn.send.length < sendBufferCap then
      ({ m with connections := m.connections.map (fun p =>
          if p.1 == agentId then
            (p.1, { p.2 with send := p.2.send ++ [frame] }) else p) }, none)
    else (m, none)

theorem find?_map_pred {α : Type} (l : List α) (p : α → Bool) (g : α → α)
    (hg : ∀ a, p (g a) = p a) :
    (l.map g).find? p = (l.find? p).map g := by
  induction l with
  | nil => rfl
  | cons a rest ih =>
    simp only [List.map_cons, List.find?_cons]
    rw [hg a]
    cases hp : p a <;> simp [ih]

theorem getConnection_after_send (l : List (Nat × AgentConnection))
    (agentId : Nat) (frame : WSFrame) (conn : AgentConnection)
    (h : (l.find? (fun p => p.1 == agentId)).map (fun p => p.2) = some conn) :
    ((l.map (fun p => if p.1 == agentId then
        (p.1, { p.2 with send := p.2.send ++ [frame] }) else p)).find?
      (fun p => p.1 == agentId)).map (fun p => p.2) =
      some { conn with send := conn.send ++ [frame] } := by
  rw [find?_map_pred l (fun p => p.1 == agentId) _ (by
    intro p
    by_cases hp : (p.1 == agentId) = true
    · simp only [if_pos hp]
    · simp only [if_neg hp])]
  cases hf : l.find? (fun p => p.1 == agentId) with
  | none => rw [hf] at h; simp at h
  | some q =>
    rw [hf] at h
    have hq2 : q.2 = conn := by simpa using h
    have heq : q.1 = agentId := by simpa using List.find?_some hf
    simp [heq, ← hq2]

/-- C10: SendToAgent never reports a failure: the error component is `none`
for every manager state, agent id and frame; with no connection for the id
the state is returned unchanged, with a full send buffer the frame is
silently dropped (state unchanged), and otherwise the frame is appended to
the connection's send channel. -/
theorem c10_send_never_errors (m : AgentWSManager) (agentId : Nat)
    (frame : WSFrame) :
    (sendToAgent m agentId frame).2 = none ∧
    (getConnection m agentId = none → (sendToAgent m agentId frame).1 = m) ∧
    (∀ conn, getConnection m agentId = some conn →
      sendBufferCap ≤ conn.send.length → (sendToAgent m agentId frame).1 = m) ∧
    (∀ conn, getConnection m agentId = some conn →
      conn.send.length < sendBufferCap →
      getConnection (sendToAgent m agentId frame).1 agentId =
        some { conn with send := conn.send ++ [frame] }) := by
  refine ⟨?_, ?_, ?_, ?_⟩
  · cases h : getConnection m agentId with
    | none => simp [sendToAgent, h]
    | some conn =>
      by_cases hlen : conn.send.length < sendBufferCap <;>
        simp [sendToAgent, h, hlen]
  · intro h
    simp [sendToAgent, h]
  · intro conn h hlen
    simp [sendToAgent, h, Nat.not_lt.mpr hlen]
  · intro conn h hlen
    have h' : (m.connections.find? (fun p => p.1 == agentId)).map
        (fun p => p.2) = some conn := h
    simp only [sendToAgent, getConnection, h', if_pos hlen]
    exact getConnection_after_send m.connections agentId frame conn h'

def c10Conn : AgentConnection :=
  ⟨7, "ip", List.replicate 256 (WSFrame.other "t" "d"), 0, false⟩

def c10Manager : AgentWSManager :=
  ⟨[(7, c10Conn)], fun _ => 1, fun _ => none, fun _ => none⟩

set_option maxRecDepth 8000 in
theorem c10_witness :
    getConnection c10Manager 7 = some c10Conn ∧
    sendBufferCap ≤ c10Conn.send.length ∧
    (sendToAgent c10Manager 7 (WSFrame.other "x" "y")).1 = c10Manager ∧
    (sendToAgent c10Manager 7 (WSFrame.other "x" "y")).2 = none :=
  ⟨by decide, by decide,
    (c10_send_never_errors c10Manager 7 (WSFrame.other "x" "y")).2.2.1 c10Conn
      (by decide) (by decide),
    (c10_send_never_errors c10Manager 7 (WSFrame.other "x" "y")).1⟩

/-! ## Agent registry and enrollment tokens (part_007, `AgentService`)

The two tables become lists of records; `DB.First` on a `WHERE` clause
becomes `List.find?`; the auto-increment primary key becomes an explicit
counter. Times are seconds. -/

/-- `models.AgentToken`. -/
structure AgentToken where
  id : Nat
  token : String
  remark : String
  maxUses : Int
  usedCount : Int
  expiresAt : Option Int
  enabled : Bool
deriving DecidableEq, Repr

/-- `models.Agent` (the fields read by the verified operations). -/
structure Agent where
  id : Nat
  name : String
  token : String
  machineId : String
  ip : String
  status : String
  lastSeen : Option Int
  enabled : Bool
  forceUpdate : Bool
  version : String
  buildTime : String
  hostname : String
  os : String
  arch : String
deriving DecidableEq, Repr

structure AgentDB where
  tokens : List AgentToken
  agents : List Agent
  nextAgentId : Nat
deriving DecidableEq, Repr

/-- The four enrollment failure classes of `ValidateToken`. -/
inductive TokenError where
  | unknown
  | disabled
  | exhausted
  | expired
deriving DecidableEq, Repr

/-- `ValidateToken`: exists, enabled, under max-uses (0 = unlimited), not
past expiry. -/
def validateToken (now : Int) (db : AgentDB) (tok : String) :
    Except TokenError AgentToken :=
  match db.tokens.find? (fun t => t.token == tok) with
  | none => .error .unknown
  | some t =>
    if !t.enabled then .error .disabled
    else if 0 < t.maxUses ∧ t.maxUses ≤ t.usedCount then .error .exhausted
    else
      match t.expiresAt with
      | some e => if e < now then .error .expired else .ok t
      | none => .ok t

/-- `UseToken`: `used_count = used_count + 1` on the row with the id. -/
def useToken (db : AgentDB) (id : Nat) : AgentDB :=
  { db with tokens := db.tokens.map (fun t =>
      if t.id == id then { t with usedCount := t.usedCount + 1 } else t) }

def getByToken (db : AgentDB) (tok : String) : Option Agent :=
  db.agents.find? (fun a => a.token == tok)

def getByMachineId (db : AgentDB) (mid : String) : Option Agent :=
  db.agents.find? (fun a => a.machineId == mid)

/-- Update the agent row with the given id. -/
def updateAgents (db : AgentDB) (id : Nat) (g : Agent → Agent) : AgentDB :=
  { db with agents := db.agents.map (fun a => if a.id == id then g a else a) }

/-- `RegisterByToken`: validate; with a non-empty machine id that matches an
existing agent, reuse it (update token, ip, status, last-seen, consume one
token use, `isNew = false`); otherwise create a fresh agent with the
synthetic `agent-<unix>` name and consume one token use (`isNew = true`). -/
def registerByToken (now : Int) (db : AgentDB) (tok mid ip : String) :
    Except TokenError (AgentDB × Agent × Bool) :=
  match validateToken now db tok with
  | .error e => .error e
  | .ok t =>
    match (if mid = "" then none else getByMachineId db mid) with
    | some existing =>
      let updated :=
        { existing with
          token := tok, ip := ip, status := "online", lastSeen := some now }
      let db1 := updateAgents db existing.id (fun a =>
        { a with
          token := tok, ip := ip, status := "online", lastSeen := some now })
      .ok (useToken db1 t.id, updated, false)
    | none =>
      let agent : Agent :=
        { id := db.nextAgentId, name := "agent-" ++ toString now, token := tok,
          machineId := mid, ip := ip, status := "online", lastSeen := some now,
          enabled := true, forceUpdate := false, version := "", buildTime := "",
          hostname := "", os := "", arch := "" }
      let db1 :=
        { db with
          agents := db.agents ++ [agent], nextAgentId := db.nextAgentId + 1 }
      .ok (useToken db1 t.id, agent, true)

inductive HeartbeatError where
  | invalidToken
  | agentDisabled
deriving DecidableEq, Repr

/-- `AgentService.Heartbeat`: locate by token, refuse when disabled, set
status/last-seen/ip, merge the non-empty metadata fields into the row. The
returned in-memory copy has every metadata field overwritten (also with
empty strings), exactly as the source assigns after the row update. -/
def serviceHeartbeat (now : Int) (db : AgentDB)
    (tok ip version buildTime hostname osType arch : String) :
    Except HeartbeatError (AgentDB × Agent) :=
  match getByToken db tok with
  | none => .error .invalidToken
  | some agent =>
    if !agent.enabled then .error .agentDisabled
    else
      let db1 := updateAgents db agent.id (fun a =>
        { a with
          status := "online", lastSeen := some now, ip := ip,
          version := if version ≠ "" then version else a.version,
          buildTime := if buildTime ≠ "" then buildTime else a.buildTime,
          hostname := if hostname ≠ "" then hostname else a.hostname,
          os := if osType ≠ "" then osType else a.os,
          arch := if arch ≠ "" then arch else a.arch })
      let ret :=
        { agent with
          status := "online", lastSeen := some now, ip := ip,
          version := version, buildTime := buildTime, hostname := hostname,
          os := osType, arch := arch }
      .ok (db1, ret)

/-- `ClearForceUpdate`. -/
def clearForceUpdate (db : AgentDB) (id : Nat) : AgentDB :=
  updateAgents db id (fun a => { a with forceUpdate := false })

/-- The `needUpdate` condition of both heartbeat handlers:
`latestVersion != "" && req.Version != "" && req.Version != latestVersion`. -/
def needUpdateCalc (latest version : String) : Bool :=
  latest != "" && version != "" && version != latest

/-- `AgentController.Heartbeat` (HTTP): resolve the agent fresh by token
through the service, build the ack from the freshly read row, clear the
persistent force flag when `force && need`. -/
def httpHeartbeat (now : Int) (latest : String) (db : AgentDB)
    (tok ip version buildTime hostname osType arch : String) :
    AgentDB × Except HeartbeatError HeartbeatAck :=
  if tok = "" then (db, .error .invalidToken)
  else
    match serviceHeartbeat now db tok ip version buildTime hostname osType arch with
    | .error e => (db, .error e)
    | .ok (db1, agent) =>
      let needUpdate := needUpdateCalc latest version
      let force := agent.forceUpdate
      let db2 := if force && needUpdate then clearForceUpdate db1 agent.id
        else db1
      (db2, .ok ⟨agent.id, agent.name, needUpdate, force, latest⟩)

/-- `UpdatePing` on the connection bound to the agent. -/
def updatePing (m : AgentWSManager) (agentId : Nat) (now : Int) :
    AgentWSManager :=
  { m with connections := m.connections.map (fun p =>
      if p.1 == agentId then (p.1, { p.2 with lastPing := now }) else p) }

/-- `AgentController.handleHeartbeat` (WebSocket): refresh the ping time,
update the row through the service (return value discarded), but read
`force_update` from the `agent` pointer captured when the connection was
made, clear the persistent flag when `force && need`, and enqueue the ack
on the connection's send channel. -/
def wsHandleHeartbeat (now : Int) (latest : String) (db : AgentDB)
    (m : AgentWSManager) (snapshot : Agent)
    (connIp version buildTime hostname osType arch : String) :
    AgentDB × AgentWSManager × HeartbeatAck :=
  let m1 := updatePing m snapshot.id now
  let db1 := match serviceHeartbeat now db snapshot.token connIp version
      buildTime hostname osType arch with
    | .ok (d, _) => d
    | .error _ => db
  let needUpdate := needUpdateCalc latest version
  let force := snapshot.forceUpdate
  let db2 := if force && needUpdate then clearForceUpdate db1 snapshot.id
    else db1
  let ack : HeartbeatAck := ⟨snapshot.id, snapshot.name, needUpdate, force, latest⟩
  (db2, (sendToAgent m1 snapshot.id (.heartbeatAck ack)).1, ack)

/-! ## Per-IP admission control (part_006, `CheckRateLimit`) -/

/-- The three rejection classes; `blocked` carries the remaining block time
that the 429 body's error string names. -/
inductive RateReason where
  | blocked (remainingSec : Int)
  | tooFrequent
  | tooManyConnections
deriving DecidableEq, Repr

def eraseFailCount (m : AgentWSManager) (ip : String) : AgentWSManager :=
  { m with ipFailCount := fun i => if i = ip then none else m.ipFailCount i }

def setLastAttempt (m : AgentWSManager) (ip : String) (now : Int) :
    AgentWSManager :=
  { m with ipLastAttempt := fun i =>
      if i = ip then some now else m.ipLastAttempt i }

/-- The frequency, connection-count and admit steps of `CheckRateLimit`
(everything after the blocked-window check). -/
def checkRateLimitTail (now : Int) (ip : String) (m : AgentWSManager) :
    AgentWSManager × Option RateReason :=
  let freq : Bool := match m.ipLastAttempt ip with
    | some la => decide (now - la < minConnectIntervalSec)
    | none => false
  if freq then (m, some .tooFrequent)
  else if maxConnectionsPerIP ≤ m.ipConnections ip then
    (m, some .tooManyConnections)
  else (setLastAttempt m ip now, none)

/-- `CheckRateLimit`: reject inside the blocked window (`fail_count ≥ 5`
and under 5 minutes since the last attempt, with the remaining time in the
reason); reset the fail count once the window has passed; then the
too-frequent,连接数 and admit steps. -/
def checkRateLimit (now : Int) (ip : String) (m : AgentWSManager) :
    AgentWSManager × Option RateReason :=
  match m.ipFailCount ip with
  | some fc =>
    if maxFailCount ≤ fc then
      match m.ipLastAttempt ip with
      | some la =>
        if now - la < failBlockDurationSec then
          (m, some (.blocked (failBlockDurationSec - (now - la))))
        else checkRateLimitTail now ip (eraseFailCount m ip)
      | none => checkRateLimitTail now ip m
    else checkRateLimitTail now ip m
  | none => checkRateLimitTail now ip m

/-- `RecordConnectFail`: bump the fail count, stamp the attempt time. -/
def recordConnectFail (now : Int) (ip : String) (m : AgentWSManager) :
    AgentWSManager :=
  { m with
    ipFailCount := fun i =>
      if i = ip then some ((m.ipFailCount ip).getD 0 + 1) else m.ipFailCount i,
    ipLastAttempt := fun i =>
      if i = ip then some now else m.ipLastAttempt i }

/-- `RecordConnectSuccess`: clear the fail count. -/
def recordConnectSuccess (ip : String) (m : AgentWSManager) : AgentWSManager :=
  eraseFailCount m ip

/-- `Register`: displace any existing connection for the agent (closing it
and releasing its ip slot), bind a fresh connection with an empty send
buffer, and count the new ip slot. -/
def registerConn (m : AgentWSManager) (agentId : Nat) (ip : String)
    (now : Int) : AgentWSManager × AgentConnection :=
  let m1 := match getConnection m agentId with
    | some old =>
      if old.ip ≠ "" then
        { m with ipConnections := fun i =>
            if i = old.ip then
              (if 0 < m.ipConnections old.ip then m.ipConnections old.ip - 1
                else m.ipConnections old.ip)
            else m.ipConnections i }
      else m
    | none => m
  let ac : AgentConnection := ⟨agentId, ip, [], now, false⟩
  ({ m1 with
      connections := m1.connections.filter (fun p => p.1 != agentId) ++
        [(agentId, ac)],
      ipConnections := fun i =>
        if i = ip then m1.ipConnections ip + 1 else m1.ipConnections i }, ac)

/-! ## WebSocket connect (agent_controller.go, `WSConnect`) -/

/-- Outcome of a connection attempt. `rateLimited` is the HTTP 429 whose
JSON body's `error` field is the reason; `unauthorized*` are the 401s;
`forbiddenDisabled` the 403; `connected` models the successful upgrade and
the `connected` frame `{agent_id, name, is_new_agent, machine_id}`. -/
inductive WSConnectResp where
  | rateLimited (reason : RateReason)
  | unauthorizedMissingToken
  | unauthorizedRegister (e : TokenError)
  | forbiddenDisabled
  | connected (agentId : Nat) (name : String) (isNewAgent : Bool)
      (machineId : String)
deriving DecidableEq, Repr

structure ServerState where
  db : AgentDB
  ws : AgentWSManager

/-- Tail of `WSConnect` once the agent is resolved: enabled check (403 +
fail record), success record, connection registration, a service heartbeat
refreshing status/last-seen/ip, and the `connected` frame. -/
def wsConnectFinish (now : Int) (st : ServerState) (agent : Agent)
    (isNew : Bool) (tok mid ip : String) : ServerState × WSConnectResp :=
  if !agent.enabled then
    ({ st with ws := recordConnectFail now ip st.ws }, .forbiddenDisabled)
  else
    let ws1 := recordConnectSuccess ip st.ws
    let (ws2, _ac) := registerConn ws1 agent.id ip now
    let db1 := match serviceHeartbeat now st.db tok ip "" "" "" "" "" with
      | .ok (d, _) => d
      | .error _ => st.db
    let ws3 := (sendToAgent ws2 agent.id
      (.connected agent.id agent.name isNew mid)).1
    (⟨db1, ws3⟩, .connected agent.id agent.name isNew mid)

/-- `WSConnect`: admission control, then resolve the agent by token first
and only on a miss register through the enrollment token (which checks the
machine id), then the common tail. -/
def wsConnect (now : Int) (st : ServerState) (tok mid ip : String) :
    ServerState × WSConnectResp :=
  match checkRateLimit now ip st.ws with
  | (ws1, some r) => ({ st with ws := ws1 }, .rateLimited r)
  | (ws1, none) =>
    if tok = "" then
      ({ st with ws := recordConnectFail now ip ws1 },
        .unauthorizedMissingToken)
    else
      match getByToken st.db tok with
      | some agent => wsConnectFinish now { st with ws := ws1 } agent false tok mid ip
      | none =>
        match registerByToken now st.db tok mid ip with
        | .error e =>
          ({ st with ws := recordConnectFail now ip ws1 },
            .unauthorizedRegister e)
        | .ok (db1, agent, isNew) =>
          wsConnectFinish now ⟨db1, ws1⟩ agent isNew tok mid ip

/-! ### Admission control facts (C6) -/

theorem checkRateLimitTail_spec (now : Int) (ip : String) (m : AgentWSManager) :
    (∀ la, m.ipLastAttempt ip = some la → now - la < minConnectIntervalSec →
      checkRateLimitTail now ip m = (m, some .tooFrequent)) ∧
    ((∀ la, m.ipLastAttempt ip = some la → minConnectIntervalSec ≤ now - la) →
      (maxConnectionsPerIP ≤ m.ipConnections ip →
        checkRateLimitTail now ip m = (m, some .tooManyConnections)) ∧
      (m.ipConnections ip < maxConnectionsPerIP →
        checkRateLimitTail now ip m = (setLastAttempt m ip now, none))) := by
  constructor
  · intro la hla hfreq
    rw [checkRateLimitTail, hla]
    simp only [decide_eq_true hfreq, if_pos]
  · intro hslow
    have hfreq : (match m.ipLastAttempt ip with
        | some la => decide (now - la < minConnectIntervalSec)
        | none => false) = false := by
      cases hla : m.ipLastAttempt ip with
      | none => rfl
      | some la =>
        have := hslow la hla
        simp
        omega
    constructor
    · intro hcount
      rw [checkRateLimitTail, hfreq]
      simp only [Bool.false_eq_true, if_false, if_pos hcount]
    · intro hcount
      rw [checkRateLimitTail, hfreq]
      have hn : ¬ maxConnectionsPerIP ≤ m.ipConnections ip := by omega
      simp only [Bool.false_eq_true, if_false]
      rw [if_neg hn]

/-- C6: a connection attempt is rejected inside the blocked window
(`fail_count ≥ 5` and less than 5 minutes since the last attempt), with the
remaining block time carried in the reason; otherwise it is rejected when
less than 5 seconds have passed since the last attempt; otherwise when the
ip already holds 10 or more connections; and otherwise the attempt is
admitted with `last_attempt` set to now. `WSConnect` turns every rejection
into an HTTP 429 whose body's error field is that reason. -/
theorem c6_admission (now : Int) (ip : String) (m : AgentWSManager) :
    (∀ fc la, m.ipFailCount ip = some fc → maxFailCount ≤ fc →
      m.ipLastAttempt ip = some la → now - la < failBlockDurationSec →
      checkRateLimit now ip m =
        (m, some (.blocked (failBlockDurationSec - (now - la))))) ∧
    (∀ la, m.ipLastAttempt ip = some la → now - la < minConnectIntervalSec →
      (∀ fc, m.ipFailCount ip = some fc → fc < maxFailCount) →
      (checkRateLimit now ip m).2 = some .tooFrequent) ∧
    ((∀ la, m.ipLastAttempt ip = some la → minConnectIntervalSec ≤ now - la) →
      (∀ fc, m.ipFailCount ip = some fc → maxFailCount ≤ fc →
        ∀ la, m.ipLastAttempt ip = some la → failBlockDurationSec ≤ now - la) →
      (maxConnectionsPerIP ≤ m.ipConnections ip →
        (checkRateLimit now ip m).2 = some .tooManyConnections) ∧
      (m.ipConnections ip < maxConnectionsPerIP →
        (checkRateLimit now ip m).2 = none ∧
          (checkRateLimit now ip m).1.ipLastAttempt ip = some now)) ∧
    (∀ (st : ServerState) (tok mid : String) (ws1 : AgentWSManager)
      (r : RateReason), st.ws = m → checkRateLimit now ip m = (ws1, some r) →
      wsConnect now st tok mid ip = ({ st with ws := ws1 }, .rateLimited r)) := by
  refine ⟨?_, ?_, ?_, ?_⟩
  · intro fc la hfc hge hla hwin
    simp only [checkRateLimit, hfc]
    rw [if_pos hge]
    simp only [hla]
    rw [if_pos hwin]
  · intro la hla hfreq hsmall
    have htail : checkRateLimitTail now ip m = (m, some .tooFrequent) :=
      (checkRateLimitTail_spec now ip m).1 la hla hfreq
    cases hfc : m.ipFailCount ip with
    | none =>
      simp only [checkRateLimit, hfc]
      rw [htail]
    | some fc =>
      simp only [checkRateLimit, hfc]
      rw [if_neg (by have := hsmall fc hfc; omega), htail]
  · intro hslow hblocked
    have htail := (checkRateLimitTail_spec now ip m).2 hslow
    have hres : checkRateLimit now ip m = checkRateLimitTail now ip m ∨
        checkRateLimit now ip m =
          checkRateLimitTail now ip (eraseFailCount m ip) := by
      cases hfc : m.ipFailCount ip with
      | none => left; simp only [checkRateLimit, hfc]
      | some fc =>
        by_cases hge : maxFailCount ≤ fc
        · cases hla : m.ipLastAttempt ip with
          | none =>
            left
            simp only [checkRateLimit, hfc]
            rw [if_pos hge]
            simp only [hla]
          | some la =>
            right
            simp only [checkRateLimit, hfc]
            rw [if_pos hge]
            simp only [hla]
            rw [if_neg (by have := hblocked fc hfc hge la hla; omega)]
        · left
          simp only [checkRateLimit, hfc]
          rw [if_neg hge]
    have htail2 := (checkRateLimitTail_spec now ip (eraseFailCount m ip)).2
      (by intro la hla; exact hslow la hla)
    constructor
    · intro hcount
      rcases hres with h | h <;> rw [h]
      · rw [(htail.1 hcount)]
      · rw [(htail2.1 hcount)]
    · intro hcount
      rcases hres with h | h <;> rw [h]
      · rw [(htail.2 hcount)]
        exact ⟨rfl, by simp [setLastAttempt]⟩
      · rw [(htail2.2 hcount)]
        exact ⟨rfl, by simp [setLastAttempt]⟩
  · intro st tok mid ws1 r hst hcr
    subst hst
    rw [wsConnect, hcr]

def c6BlockedManager : AgentWSManager :=
  ⟨[], fun _ => 0, fun i => if i = "9.9.9.9" then some 100 else none,
    fun i => if i = "9.9.9.9" then some 5 else none⟩

theorem c6_witness :
    (c6BlockedManager.ipFailCount "9.9.9.9" = some 5 ∧
      maxFailCount ≤ 5 ∧
      c6BlockedManager.ipLastAttempt "9.9.9.9" = some 100 ∧
      (200 : Int) - 100 < failBlockDurationSec) ∧
    checkRateLimit 200 "9.9.9.9" c6BlockedManager =
      (c6BlockedManager,
        some (.blocked (failBlockDurationSec - ((200 : Int) - 100)))) :=
  ⟨⟨by decide, by decide, by decide, by decide⟩,
    (c6_admission 200 "9.9.9.9" c6BlockedManager).1 5 100 (by decide)
      (by decide) (by decide) (by decide)⟩

/-! ### Registration facts (C1) -/

instance {ε α : Type} [DecidableEq ε] [DecidableEq α] :
    DecidableEq (Except ε α)
  | .error a, .error b =>
    if h : a = b then .isTrue (by rw [h]) else .isFalse (by simp [h])
  | .error a, .ok b => .isFalse (by intro hc; cases hc)
  | .ok a, .error b => .isFalse (by intro hc; cases hc)
  | .ok a, .ok b =>
    if h : a = b then .isTrue (by rw [h]) else .isFalse (by simp [h])

theorem validateToken_ok_find (now : Int) (db : AgentDB) (tok : String)
    (t : AgentToken) (h : validateToken now db tok = .ok t) :
    db.tokens.find? (fun x => x.token == tok) = some t := by
  rw [validateToken] at h
  cases hf : db.tokens.find? (fun x => x.token == tok) with
  | none => simp [hf] at h
  | some t2 =>
    simp only [hf] at h
    cases hexp : t2.expiresAt <;> simp only [hexp] at h <;>
      split_ifs at h <;> simp_all

theorem serviceHeartbeat_ok_shape (now : Int) (db : AgentDB)
    (tok ip v bt hn osT ar : String) (d : AgentDB) (ag : Agent)
    (h : serviceHeartbeat now db tok ip v bt hn osT ar = .ok (d, ag)) :
    d.tokens = db.tokens ∧ d.nextAgentId = db.nextAgentId := by
  rw [serviceHeartbeat] at h
  cases hg : getByToken db tok with
  | none => simp [hg] at h
  | some agent =>
    simp only [hg] at h
    by_cases hen : (!agent.enabled) = true
    · rw [if_pos hen] at h
      exact absurd h (by simp)
    · rw [if_neg hen] at h
      simp only [Except.ok.injEq, Prod.mk.injEq] at h
      obtain ⟨hd, -⟩ := h
      subst hd
      exact ⟨rfl, rfl⟩

/-- The db component produced by the heartbeat call inside
`wsConnectFinish` keeps the token table. -/
theorem heartbeatMatch_tokens (now : Int) (db : AgentDB)
    (tok ip v bt hn osT ar : String) :
    (match serviceHeartbeat now db tok ip v bt hn osT ar with
      | .ok (d, _) => d
      | .error _ => db).tokens = db.tokens := by
  cases hs : serviceHeartbeat now db tok ip v bt hn osT ar with
  | error e => rfl
  | ok p =>
    exact (serviceHeartbeat_ok_shape now db tok ip v bt hn osT ar p.1 p.2
      (by rw [hs])).1

/-- C1 (amended): a call to `RegisterByToken` whose token validates and
whose non-empty machine id matches an existing agent reuses that agent
(token, ip, status=online, last-seen updated), reports `isNew = false` and
increments the token's `used_count` by exactly one, leaving every other
token row unchanged. However, a WebSocket connection whose token already
resolves to an agent never calls `RegisterByToken` and leaves every token's
`used_count` unchanged — so a second connection with the same token and
machine id leaves the count at 1, not 2. -/
theorem c1_register_reuse (now : Int) (db : AgentDB) (tok mid ip : String)
    (t : AgentToken) (a : Agent)
    (hval : validateToken now db tok = .ok t)
    (hmid : mid ≠ "")
    (hfound : getByMachineId db mid = some a) :
    (∃ db2, registerByToken now db tok mid ip =
      .ok (db2,
        { a with
          token := tok, ip := ip, status := "online", lastSeen := some now },
        false) ∧
      db2.tokens = db.tokens.map (fun x =>
        if x.id == t.id then { x with usedCount := x.usedCount + 1 } else x) ∧
      db2.tokens.find? (fun x => x.token == tok) =
        some { t with usedCount := t.usedCount + 1 } ∧
      db2.nextAgentId = db.nextAgentId) ∧
    (∀ (st : ServerState) (tok2 : String) (agent : Agent),
      getByToken st.db tok2 = some agent →
      ∀ now2 mid2 ip2,
        (wsConnect now2 st tok2 mid2 ip2).1.db.tokens = st.db.tokens) := by
  constructor
  · have hfind := validateToken_ok_find now db tok t hval
    refine ⟨useToken (updateAgents db a.id (fun x =>
      { x with
        token := tok, ip := ip, status := "online", lastSeen := some now }))
      t.id, ?_, rfl, ?_, rfl⟩
    · simp only [registerByToken, hval]
      rw [if_neg hmid]
      simp only [hfound]
    · show (useToken _ t.id).tokens.find? (fun x => x.token == tok) = _
      rw [useToken]
      have hmap := find?_map_pred db.tokens (fun x => x.token == tok)
        (fun x => if x.id == t.id then
          { x with usedCount := x.usedCount + 1 } else x)
        (by
          intro x
          by_cases hx : (x.id == t.id) = true
          · simp only [if_pos hx]
          · simp only [if_neg hx])
      have htoks : (updateAgents db a.id (fun x =>
          { x with
            token := tok, ip := ip, status := "online",
            lastSeen := some now })).tokens = db.tokens := rfl
      rw [htoks, hmap, hfind]
      simp
  · intro st tok2 agent hget now2 mid2 ip2
    cases hcr : checkRateLimit now2 ip2 st.ws with
    | mk ws1 deny =>
      cases deny with
      | some r => simp only [wsConnect, hcr]
      | none =>
        by_cases htk : tok2 = ""
        · simp only [wsConnect, hcr, if_pos htk]
        · simp only [wsConnect, hcr, if_neg htk, hget, wsConnectFinish]
          by_cases hen : (!agent.enabled) = true
          · rw [if_pos hen]
          · rw [if_neg hen]
            exact heartbeatMatch_tokens now2 st.db tok2 ip2 "" "" "" "" ""

/-- Initial state for the C1 two-connection scenario (S6): one enrollment
token `T` with `max_uses = 2`, no agents. -/
def c1Token : AgentToken := ⟨1, "T", "", 2, 0, none, true⟩

def c1St0 : ServerState := ⟨⟨[c1Token], [], 1⟩, emptyWSManager⟩

def c1St1 : ServerState := (wsConnect 1000 c1St0 "T" "M1" "ip1").1

def c1St2 : ServerState := (wsConnect 1010 c1St1 "T" "M1" "ip2").1

/-- C1 (counterexample): in the S6 scenario — first connection with token
`T` and machine id `M1` creates agent 1, second connection with the same
`T` and `M1` from another ip — the second connection reports
`is_new_agent = false` with the same agent id, but the token's `used_count`
is 1 afterwards, not 2: the agent was resolved by token and
`RegisterByToken` never ran a second time. -/
theorem c1_counterexample :
    (wsConnect 1000 c1St0 "T" "M1" "ip1").2 =
      .connected 1 ("agent-" ++ toString (1000 : Int)) true "M1" ∧
    (wsConnect 1010 c1St1 "T" "M1" "ip2").2 =
      .connected 1 ("agent-" ++ toString (1000 : Int)) false "M1" ∧
    c1St2.db.tokens.map (fun t => t.usedCount) = [1] ∧
    c1St2.db.tokens.map (fun t => t.usedCount) ≠ [2] :=
  ⟨by decide, by decide, by decide, by decide⟩

/-- Concrete database for the C1 witness: the reuse branch itself. -/
def c1AgentOld : Agent :=
  ⟨1, "node-a", "OLDTOKEN", "M1", "ip0", "offline", some 10, true, false,
    "", "", "", "", ""⟩

def c1ReuseDB : AgentDB := ⟨[c1Token], [c1AgentOld], 2⟩

theorem c1_witness :
    (validateToken 500 c1ReuseDB "T" = .ok c1Token ∧ ("M1" : String) ≠ "" ∧
      getByMachineId c1ReuseDB "M1" = some c1AgentOld) ∧
    ((∃ db2, registerByToken 500 c1ReuseDB "T" "M1" "ip9" =
      .ok (db2,
        { c1AgentOld with
          token := "T", ip := "ip9", status := "online",
          lastSeen := some 500 },
        false) ∧
      db2.tokens = c1ReuseDB.tokens.map (fun x =>
        if x.id == c1Token.id then
          { x with usedCount := x.usedCount + 1 } else x) ∧
      db2.tokens.find? (fun x => x.token == "T") =
        some { c1Token with usedCount := c1Token.usedCount + 1 } ∧
      db2.nextAgentId = c1ReuseDB.nextAgentId) ∧
    (∀ (st : ServerState) (tok2 : String) (agent : Agent),
      getByToken st.db tok2 = some agent →
      ∀ now2 mid2 ip2,
        (wsConnect now2 st tok2 mid2 ip2).1.db.tokens = st.db.tokens)) :=
  ⟨⟨by decide, by decide, by decide⟩,
    c1_register_reuse 500 c1ReuseDB "T" "M1" "ip9" c1Token c1AgentOld
      (by decide) (by decide) (by decide)⟩

/-! ### Heartbeat acknowledgement facts (C2) -/

theorem getByToken_updateAgents (db : AgentDB) (id : Nat) (g : Agent → Agent)
    (hg : ∀ x, (g x).token = x.token) (tok : String) :
    getByToken (updateAgents db id g) tok =
      (getByToken db tok).map (fun a => if a.id == id then g a else a) := by
  exact find?_map_pred db.agents (fun a => a.token == tok) _ (by
    intro a
    by_cases hx : (a.id == id) = true
    · simp only [if_pos hx, hg]
    · simp only [if_neg hx])

/-- Reduction of `serviceHeartbeat` on a found, enabled agent. -/
theorem serviceHeartbeat_ok (now : Int) (db : AgentDB)
    (tok ip v bt hn osT ar : String) (agent : Agent)
    (hget : getByToken db tok = some agent) (hen : agent.enabled = true) :
    serviceHeartbeat now db tok ip v bt hn osT ar =
      .ok (updateAgents db agent.id (fun a =>
        { a with
          status := "online", lastSeen := some now, ip := ip,
          version := if v ≠ "" then v else a.version,
          buildTime := if bt ≠ "" then bt else a.buildTime,
          hostname := if hn ≠ "" then hn else a.hostname,
          os := if osT ≠ "" then osT else a.os,
          arch := if ar ≠ "" then ar else a.arch }),
        { agent with
          status := "online", lastSeen := some now, ip := ip, version := v,
          buildTime := bt, hostname := hn, os := osT, arch := ar }) := by
  simp only [serviceHeartbeat, hget]
  rw [if_neg (by simp [hen])]

/-- C2 (amended): the ack of both heartbeat handlers carries
`need_update = (latest ≠ "" ∧ client_version ≠ "" ∧ client_version ≠
latest)` and `latest_version = latest`. Over the WebSocket the
`force_update` field is the connection-time snapshot of the agent row, and
when `force ∧ need` holds the handler clears the persistent flag in the
store; over HTTP the field is read fresh from the store, the flag is
cleared the same way, and the next HTTP heartbeat therefore reports
`force_update = false` — the flag is consumed exactly once on that path. -/
theorem c2_heartbeat_ack (now : Int) (latest : String) (db : AgentDB)
    (m : AgentWSManager) (snapshot : Agent) (connIp v bt hn osT ar : String) :
    ((wsHandleHeartbeat now latest db m snapshot connIp v bt hn osT ar).2.2 =
      ⟨snapshot.id, snapshot.name, needUpdateCalc latest v,
        snapshot.forceUpdate, latest⟩) ∧
    (needUpdateCalc latest v = (latest != "" && v != "" && v != latest)) ∧
    (snapshot.forceUpdate = true → needUpdateCalc latest v = true →
      ∀ a ∈ (wsHandleHeartbeat now latest db m snapshot connIp v bt hn osT
          ar).1.agents, a.id = snapshot.id → a.forceUpdate = false) ∧
    (∀ tok agent, tok ≠ "" → getByToken db tok = some agent →
      agent.enabled = true →
      (httpHeartbeat now latest db tok connIp v bt hn osT ar).2 =
        .ok ⟨agent.id, agent.name, needUpdateCalc latest v,
          agent.forceUpdate, latest⟩ ∧
      (agent.forceUpdate = true → needUpdateCalc latest v = true →
        ∃ agent2,
          getByToken (httpHeartbeat now latest db tok connIp v bt hn osT
            ar).1 tok = some agent2 ∧
          agent2.forceUpdate = false ∧ agent2.enabled = true ∧
          ∀ now2 latest2 ip2 v2 bt2 hn2 os2 ar2,
            (httpHeartbeat now2 latest2
              (httpHeartbeat now latest db tok connIp v bt hn osT ar).1
              tok ip2 v2 bt2 hn2 os2 ar2).2 =
              .ok ⟨agent2.id, agent2.name, needUpdateCalc latest2 v2,
                false, latest2⟩)) := by
  refine ⟨rfl, rfl, ?_, ?_⟩
  · intro hforce hneed a ha haid
    simp only [wsHandleHeartbeat, hforce, hneed, Bool.and_self, if_pos] at ha
    rcases List.mem_map.mp (by
      simpa only [clearForceUpdate, updateAgents] using ha) with ⟨x, hx, hxa⟩
    subst hxa
    by_cases hid : (x.id == snapshot.id) = true
    · rw [if_pos hid]
    · rw [if_neg hid] at haid ⊢
      exact absurd (by simp [haid]) hid
  · intro tok agent htok hget hen
    have hsvc := serviceHeartbeat_ok now db tok connIp v bt hn osT ar agent
      hget hen
    constructor
    · rw [httpHeartbeat, if_neg htok]
      simp only [hsvc]
    · intro hforce hneed
      have hdb1 : (httpHeartbeat now latest db tok connIp v bt hn osT
          ar).1 = clearForceUpdate (updateAgents db agent.id (fun a =>
            { a with
              status := "online", lastSeen := some now, ip := connIp,
              version := if v ≠ "" then v else a.version,
              buildTime := if bt ≠ "" then bt else a.buildTime,
              hostname := if hn ≠ "" then hn else a.hostname,
              os := if osT ≠ "" then osT else a.os,
              arch := if ar ≠ "" then ar else a.arch })) agent.id := by
        rw [httpHeartbeat, if_neg htok]
        simp only [hsvc]
        rw [if_pos (by simp [hforce, hneed])]
      set g1 : Agent → Agent := fun a =>
        { a with
          status := "online", lastSeen := some now, ip := connIp,
          version := if v ≠ "" then v else a.version,
          buildTime := if bt ≠ "" then bt else a.buildTime,
          hostname := if hn ≠ "" then hn else a.hostname,
          os := if osT ≠ "" then osT else a.os,
          arch := if ar ≠ "" then ar else a.arch } with hg1
      have hget1 : getByToken (updateAgents db agent.id g1) tok =
          some (g1 agent) := by
        rw [getByToken_updateAgents db agent.id g1 (fun x => rfl) tok, hget]
        simp
      have hget2 : getByToken (clearForceUpdate
          (updateAgents db agent.id g1) agent.id) tok =
          some { g1 agent with forceUpdate := false } := by
        rw [clearForceUpdate,
          getByToken_updateAgents (updateAgents db agent.id g1) agent.id
            (fun a => { a with forceUpdate := false }) (fun x => rfl) tok,
          hget1]
        simp
      refine ⟨{ g1 agent with forceUpdate := false }, ?_, rfl, hen, ?_⟩
      · rw [hdb1]
        exact hget2
      · intro now2 latest2 ip2 v2 bt2 hn2 os2 ar2
        have hsvc2 := serviceHeartbeat_ok now2
          (clearForceUpdate (updateAgents db agent.id g1) agent.id)
          tok ip2 v2 bt2 hn2 os2 ar2 { g1 agent with forceUpdate := false }
          hget2 hen
        rw [hdb1, httpHeartbeat, if_neg htok]
        simp only [hsvc2]

/-- Agent row and store for the C2 scenarios: force flag set, version v1,
latest published version v2. -/
def c2Agent : Agent :=
  ⟨1, "A", "t", "m", "ip", "online", some 0, true, true, "v1", "", "", "", ""⟩

def c2DB : AgentDB := ⟨[], [c2Agent], 2⟩

def c2Ws1 : AgentDB × AgentWSManager × HeartbeatAck :=
  wsHandleHeartbeat 100 "v2" c2DB emptyWSManager c2Agent "ip" "v1" "" "" "" ""

/-- C2 (counterexample): (i) a WebSocket heartbeat reporting an empty
client version against published version `v2` gets `need_update = false`
although the claimed formula `latest ≠ "" ∧ client ≠ latest` holds — the
code also requires a non-empty client version; (ii) after a heartbeat that
consumed the force flag (the store now holds `force_update = false`), the
next heartbeat on the same connection still reports `force_update = true`,
because the handler reads the connection-time snapshot — so the next
heartbeat does not see `force_update = false` as claimed. -/
theorem c2_counterexample :
    ((wsHandleHeartbeat 100 "v2" c2DB emptyWSManager c2Agent "ip" "" "" ""
        "" "").2.2.needUpdate = false ∧
      (("v2" : String) ≠ "" ∧ ("" : String) ≠ "v2")) ∧
    (c2Ws1.2.2.forceUpdate = true ∧
      c2Ws1.1.agents.map (fun a => a.forceUpdate) = [false] ∧
      (wsHandleHeartbeat 200 "v2" c2Ws1.1 c2Ws1.2.1 c2Agent "ip" "v1" "" ""
        "" "").2.2.forceUpdate = true) :=
  ⟨⟨by decide, by decide, by decide⟩, by decide, by decide, by decide⟩

theorem c2_witness :
    (("t" : String) ≠ "" ∧ getByToken c2DB "t" = some c2Agent ∧
      c2Agent.enabled = true) ∧
    ((httpHeartbeat 100 "v2" c2DB "t" "ip" "v1" "" "" "" "").2 =
      .ok ⟨c2Agent.id, c2Agent.name, needUpdateCalc "v2" "v1",
        c2Agent.forceUpdate, "v2"⟩ ∧
    (c2Agent.forceUpdate = true → needUpdateCalc "v2" "v1" = true →
      ∃ agent2,
        getByToken (httpHeartbeat 100 "v2" c2DB "t" "ip" "v1" "" "" ""
          "").1 "t" = some agent2 ∧
        agent2.forceUpdate = false ∧ agent2.enabled = true ∧
        ∀ now2 latest2 ip2 v2 bt2 hn2 os2 ar2,
          (httpHeartbeat now2 latest2
            (httpHeartbeat 100 "v2" c2DB "t" "ip" "v1" "" "" "" "").1
            "t" ip2 v2 bt2 hn2 os2 ar2).2 =
            .ok ⟨agent2.id, agent2.name, needUpdateCalc latest2 v2,
              false, latest2⟩)) :=
  ⟨⟨by decide, by decide, by decide⟩,
    (c2_heartbeat_ack 100 "v2" c2DB emptyWSManager c2Agent "ip" "v1" "" ""
      "" "").2.2.2 "t" c2Agent (by decide) (by decide) (by decide)⟩

/-! ## Result reporting and the local log pipeline (C4)

`AgentService.ReportResult` (part_007) is the handler behind both the
`task_result` WebSocket frame (`handleTaskResult`) and the HTTP
`POST /api/agent/report` endpoint; the legacy local pipeline is the
callback chain `saveTaskLogCallback` → `updateStatsCallback` →
`cleanLogsCallback` of executor_service.go. -/

/-- `models.AgentTaskResult`. -/
structure AgentTaskResult where
  taskId : Nat
  agentId : Nat
  command : String
  output : String
  status : String
  duration : Int
  exitCode : Int
  startTime : Int
  endTime : Int
deriving DecidableEq, Repr

/-- Key of the dashboard counter: task, day, status. -/
structure StatKey where
  taskId : Nat
  day : Nat
  status : String
deriving DecidableEq, Repr

/-- Modelled from the spec: `SendStatsService.IncrementStats` is called by
the verified code but its implementation is not among the sources; §4.F.4
requires incrementing a per-day, per-status counter. -/
def incrementStats (stats : List (StatKey × Nat)) (key : StatKey) :
    List (StatKey × Nat) :=
  match stats with
  | [] => [(key, 1)]
  | p :: rest =>
    if p.1 = key then (p.1, p.2 + 1) :: rest
    else p :: incrementStats rest key

def statCount (stats : List (StatKey × Nat)) (key : StatKey) : Nat :=
  match stats with
  | [] => 0
  | p :: rest => if p.1 = key then p.2 else statCount rest key

/-- The store touched by result processing: task table, log table with its
auto-increment id, and the dashboard counters. -/
structure LogStore where
  tasks : List Task
  logs : List TaskLog
  nextLogId : Nat
  stats : List (StatKey × Nat)
deriving DecidableEq, Repr

def dayOf (now : Nat) : Nat := now / 86400

/-- The log row `ReportResult` inserts: compressed output (empty when
compression fails), the reported command, status, duration, exit code and
the positive unix timestamps. -/
def reportLogOf (compress : String → Option String) (now : Nat)
    (nextId : Nat) (r : AgentTaskResult) : TaskLog :=
  { id := nextId, taskId := r.taskId, agentId := some r.agentId,
    command := r.command, output := (compress r.output).getD "",
    status := r.status, duration := r.duration, exitCode := r.exitCode,
    startTime := if 0 < r.startTime then some r.startTime.toNat else none,
    endTime := if 0 < r.endTime then some r.endTime.toNat else none,
    createdAt := now }

/-- `AgentService.ReportResult`: insert the log row, set the task's
`last_run`, bump the per-day per-status counter. No retention step. -/
def reportResult (compress : String → Option String) (now : Nat)
    (r : AgentTaskResult) (st : LogStore) : LogStore :=
  { st with
    logs := st.logs ++ [reportLogOf compress now st.nextLogId r],
    nextLogId := st.nextLogId + 1,
    tasks := st.tasks.map (fun t =>
      if t.id == r.taskId then { t with lastRun := some now } else t),
    stats := incrementStats st.stats ⟨r.taskId, dayOf now, r.status⟩ }

/-- `handleTaskResult` (WebSocket frame): stamp the sender's agent id and
delegate to `ReportResult`. -/
def handleTaskResultFrame (compress : String → Option String) (now : Nat)
    (agent : Agent) (r : AgentTaskResult) (st : LogStore) : LogStore :=
  reportResult compress now { r with agentId := agent.id } st

/-- `AgentController.ReportResult` (HTTP): bearer-token auth, enabled
check, then the same `ReportResult` call; the Bool is request success. -/
def reportResultHTTP (compress : String → Option String) (now : Nat)
    (db : AgentDB) (tok : String) (r : AgentTaskResult) (st : LogStore) :
    LogStore × Bool :=
  if tok = "" then (st, false)
  else
    match getByToken db tok with
    | none => (st, false)
    | some agent =>
      if !agent.enabled then (st, false)
      else (reportResult compress now { r with agentId := agent.id } st, true)

def statusOf (success : Bool) : String :=
  if success then "success" else "failed"

/-- `saveTaskLogCallback`: assemble and compress the output, insert the
row; this path writes neither exit code nor timestamps nor `last_run`. -/
def saveTaskLogCB (compress : String → Option String) (now : Nat)
    (taskId : Nat) (command : String) (success : Bool)
    (stdout errField : String) (durationMs : Int) (st : LogStore) : LogStore :=
  let lg : TaskLog :=
    { id := st.nextLogId, taskId := taskId, agentId := none,
      command := command,
      output := (compress (saveTaskLogOutput stdout errField)).getD "",
      status := statusOf success, duration := durationMs, exitCode := 0,
      startTime := none, endTime := none, createdAt := now }
  { st with logs := st.logs ++ [lg], nextLogId := st.nextLogId + 1 }

/-- `updateStatsCallback`. -/
def updateStatsCB (now : Nat) (taskId : Nat) (success : Bool)
    (st : LogStore) : LogStore :=
  { st with stats :=
      incrementStats st.stats ⟨taskId, dayOf now, statusOf success⟩ }

/-- `cleanLogsCallback` lifted to the store. -/
def cleanLogsCB (now : Nat) (taskId : Nat) (st : LogStore) : LogStore :=
  { st with logs := cleanLogsCallback st.tasks now taskId st.logs }

/-- The legacy local execution pipeline: the three callbacks in
registration order. -/
def localExecPipeline (compress : String → Option String) (now : Nat)
    (taskId : Nat) (command : String) (success : Bool)
    (stdout errField : String) (durationMs : Int) (st : LogStore) : LogStore :=
  cleanLogsCB now taskId
    (updateStatsCB now taskId success
      (saveTaskLogCB compress now taskId command success stdout errField
        durationMs st))

theorem statCount_increment (stats : List (StatKey × Nat)) (key : StatKey) :
    statCount (incrementStats stats key) key = statCount stats key + 1 := by
  induction stats with
  | nil => simp [incrementStats, statCount]
  | cons p rest ih =>
    by_cases hp : p.1 = key
    · simp [incrementStats, statCount, hp]
    · simp [incrementStats, statCount, hp, ih]

/-- C4 (amended): every reported `task_result` — WebSocket frame and HTTP
endpoint alike resolve to the same `ReportResult` call — persists one log
record carrying the reported command, output, status, duration, exit code
and timestamps, updates the parent task's `last_run`, and increments the
per-day per-status counter; but it applies no retention: every previously
stored log survives, unlike the local pipeline, which runs the retention
callback after persisting. -/
theorem c4_report_result (compress : String → Option String) (now : Nat)
    (r : AgentTaskResult) (st : LogStore) :
    (reportResult compress now r st).logs =
      st.logs ++ [reportLogOf compress now st.nextLogId r] ∧
    (∀ l ∈ st.logs, l ∈ (reportResult compress now r st).logs) ∧
    (reportResult compress now r st).logs.length = st.logs.length + 1 ∧
    (∀ t ∈ st.tasks, t.id = r.taskId →
      { t with lastRun := some now } ∈ (reportResult compress now r st).tasks) ∧
    (∀ t ∈ st.tasks, t.id ≠ r.taskId →
      t ∈ (reportResult compress now r st).tasks) ∧
    statCount (reportResult compress now r st).stats
        ⟨r.taskId, dayOf now, r.status⟩ =
      statCount st.stats ⟨r.taskId, dayOf now, r.status⟩ + 1 ∧
    (∀ (db : AgentDB) (tok : String) (agent : Agent), tok ≠ "" →
      getByToken db tok = some agent → agent.enabled = true →
      reportResultHTTP compress now db tok r st =
        (handleTaskResultFrame compress now agent r st, true)) := by
  refine ⟨rfl, ?_, by simp [reportResult], ?_, ?_, statCount_increment _ _, ?_⟩
  · intro l hl
    exact List.mem_append_left _ hl
  · intro t ht hid
    have : (if t.id == r.taskId then { t with lastRun := some now } else t) =
        { t with lastRun := some now } := if_pos (by simp [hid])
    rw [← this]
    exact List.mem_map_of_mem _ ht
  · intro t ht hid
    have : (if t.id == r.taskId then { t with lastRun := some now } else t) =
        t := if_neg (by simp [hid])
    rw [← this]
    exact List.mem_map_of_mem _ ht
  · intro db tok agent htok hget hen
    rw [reportResultHTTP, if_neg htok]
    simp only [hget]
    rw [if_neg (by simp [hen])]
    rfl

/-- Task with a by-count keep-1 policy, one old log, and a reported result
for it. -/
def c4Task : Task :=
  ⟨1, "t1", "cmd", "0 0 0 1 1 *", 30, "", some ⟨"count", 1⟩, "", none,
    true, none⟩

def c4OldLog : TaskLog := ⟨1, 1, none, "cmd", "", "success", 0, 0, none, none, 0⟩

def c4St0 : LogStore := ⟨[c4Task], [c4OldLog], 2, []⟩

def c4Result : AgentTaskResult := ⟨1, 9, "cmd", "out", "success", 5, 0, 100, 105⟩

/-- C4 (counterexample): for a task with a by-count keep-1 policy, holding
one old log, processing a reported result leaves both logs (retention is
never applied on the report path), while the local pipeline processing the
same outcome leaves only the new log — the post-states differ. -/
theorem c4_counterexample :
    c4Task.cleanConfig = some ⟨"count", 1⟩ ∧
    (reportResult (fun s => some s) 200 c4Result c4St0).logs.map
      (fun l => l.id) = [1, 2] ∧
    (localExecPipeline (fun s => some s) 200 1 "cmd" true "out" "" 5
      c4St0).logs.map (fun l => l.id) = [2] ∧
    ([1, 2] : List Nat) ≠ [2] :=
  ⟨by decide, by decide, by decide, by decide⟩

def c4AgentRec : Agent :=
  ⟨9, "w", "tk", "mm", "i", "online", none, true, false, "", "", "", "", ""⟩

def c4AuthDB : AgentDB := ⟨[], [c4AgentRec], 10⟩

theorem c4_witness :
    (("tk" : String) ≠ "" ∧ getByToken c4AuthDB "tk" = some c4AgentRec ∧
      c4AgentRec.enabled = true) ∧
    reportResultHTTP (fun s => some s) 200 c4AuthDB "tk" c4Result c4St0 =
      (handleTaskResultFrame (fun s => some s) 200 c4AgentRec c4Result c4St0,
        true) :=
  ⟨⟨by decide, by decide, by decide⟩,
    (c4_report_result (fun s => some s) 200 c4Result c4St0).2.2.2.2.2.2
      c4AuthDB "tk" c4AgentRec (by decide) (by decide) (by decide)⟩

/-! ### C9: agent task-frame replacement (`Agent.updateTasks`, src/agent/agent.go) -/

/-- Task record as the agent receives it in a `tasks` frame
(`AgentTask`, src/agent/agent.go:44-54). -/
structure AgentTask where
  id : Nat
  name : String
  command : String
  schedule : String
  cron : String
  timeout : Int
  workDir : String
  envs : String
  enabled : Bool
  deriving DecidableEq, Repr

/-- Association-list reading of a Go `map[uint]V`: first pair with the key wins
(the operations below keep at most one pair per key). -/
def lookupKey {β : Type} (k : Nat) (l : List (Nat × β)) : Option β :=
  (l.find? (fun p => p.1 == k)).map (fun p => p.2)

/-- `delete(m, k)`. -/
def eraseKey {β : Type} (k : Nat) (l : List (Nat × β)) : List (Nat × β) :=
  l.filter (fun p => p.1 != k)

/-- `m[k] = v`. -/
def insertKey {β : Type} (k : Nat) (v : β) (l : List (Nat × β)) :
    List (Nat × β) :=
  (k, v) :: eraseKey k l

/-- The robfig/cron scheduler as seen through `AddFunc`/`Remove`: a strictly
increasing fresh `EntryID` per successful add, plus the live entries
(entry id, schedule spec). -/
structure CronState where
  nextId : Nat
  entries : List (Nat × String)
  deriving DecidableEq, Repr

/-- `cron.AddFunc(spec, f)`: fails iff the spec does not parse (`valid`),
otherwise registers a fresh entry and returns its id. -/
def cronAdd (valid : String → Bool) (spec : String) (c : CronState) :
    Option Nat × CronState :=
  if valid spec then
    (some c.nextId, ⟨c.nextId + 1, (c.nextId, spec) :: c.entries⟩)
  else (none, c)

/-- `cron.Remove(entryID)`: drops the entry if present, no-op otherwise. -/
def cronRemove (eid : Nat) (c : CronState) : CronState :=
  ⟨c.nextId, c.entries.filter (fun e => e.1 != eid)⟩

/-- The agent's mutable schedule state: `a.tasks`, `a.entryMap`, `a.cron`. -/
structure AgentSched where
  tasks : List (Nat × AgentTask)
  entryMap : List (Nat × Nat)
  cron : CronState
  deriving DecidableEq, Repr

/-- The `newTasks` index built at the top of `updateTasks`
(`newTasks[tasks[i].ID] = &tasks[i]`): a later frame entry with the same id
overwrites an earlier one. -/
def buildNewTasks (frame : List AgentTask) : Nat → Option AgentTask :=
  frame.foldl (fun m t id => if id = t.id then some t else m id) (fun _ => none)

/-- One iteration order over the keys of `newTasks`. Go's map iteration order
is unspecified; the idempotence proof only uses that each key occurs once. -/
def frameIds (frame : List AgentTask) : List Nat :=
  (frame.map (fun t => t.id)).dedup

/-- Body of the first loop of `updateTasks` for one `entryMap` pair: an id
absent from `newTasks` has its cron entry removed and is deleted from both
maps (agent.go:413-420). -/
def removeStep (newTasks : Nat → Option AgentTask) (st : AgentSched)
    (p : Nat × Nat) : AgentSched :=
  match newTasks p.1 with
  | some _ => st
  | none =>
    { tasks := eraseKey p.1 st.tasks
      entryMap := eraseKey p.1 st.entryMap
      cron := cronRemove p.2 st.cron }

/-- First loop of `updateTasks`, iterating the `entryMap` pairs. -/
def removePhase (newTasks : Nat → Option AgentTask) (s : AgentSched) :
    AgentSched :=
  s.entryMap.foldl (removeStep newTasks) s

/-- `!exists || oldTask.Schedule != task.Schedule || oldTask.Command != task.Command`
(agent.go:423-424). -/
def taskChanged (st : AgentSched) (id : Nat) (task : AgentTask) : Bool :=
  match lookupKey id st.tasks with
  | none => true
  | some oldTask =>
    oldTask.schedule != task.schedule || oldTask.command != task.command

/-- `if entryID, ok := a.entryMap[id]; ok { a.cron.Remove(entryID) }`
(agent.go:425-427). -/
def removeOldEntry (st : AgentSched) (id : Nat) : AgentSched :=
  match lookupKey id st.entryMap with
  | some eid => { st with cron := cronRemove eid st.cron }
  | none => st

/-- `AddFunc` plus the map updates (agent.go:429-440); on failure the loop
`continue`s, leaving any stale `entryMap`/`tasks` entries in place. -/
def scheduleTask (valid : String → Bool) (st : AgentSched) (id : Nat)
    (task : AgentTask) : AgentSched :=
  match cronAdd valid task.schedule (removeOldEntry st id).cron with
  | (none, _) => removeOldEntry st id
  | (some eid, c) =>
    { tasks := insertKey id task (removeOldEntry st id).tasks
      entryMap := insertKey id eid (removeOldEntry st id).entryMap
      cron := c }

/-- Body of the second loop of `updateTasks` for one key of `newTasks`. -/
def addStep (valid : String → Bool) (newTasks : Nat → Option AgentTask)
    (st : AgentSched) (id : Nat) : AgentSched :=
  match newTasks id with
  | none => st
  | some task =>
    if taskChanged st id task then scheduleTask valid st id task else st

/-- `Agent.updateTasks` (agent.go:404-443), with `valid` standing for the
cron-spec parser behind `AddFunc`. -/
def updateTasks (valid : String → Bool) (frame : List AgentTask)
    (s : AgentSched) : AgentSched :=
  (frameIds frame).foldl (addStep valid (buildNewTasks frame))
    (removePhase (buildNewTasks frame) s)

/-- Every entry id recorded anywhere is below `cron.nextId`; holds in any
state reachable from a fresh agent, since ids are handed out increasingly. -/
def EntryBound (s : AgentSched) : Prop :=
  (∀ p ∈ s.entryMap, p.2 < s.cron.nextId) ∧
  (∀ e ∈ s.cron.entries, e.1 < s.cron.nextId)

/-- All `entryMap` keys are keys of `newTasks`. -/
def KeysCovered (newTasks : Nat → Option AgentTask) (s : AgentSched) : Prop :=
  ∀ p ∈ s.entryMap, newTasks p.1 ≠ none

/-- What one pass of the add loop guarantees for a key: either the stored
task already matches the frame's schedule and command, or the frame's
schedule does not parse and any stale `entryMap` entry no longer has a live
cron entry. -/
def StepDone (valid : String → Bool) (newTasks : Nat → Option AgentTask)
    (id : Nat) (st : AgentSched) : Prop :=
  match newTasks id with
  | none => True
  | some task =>
    (∃ old, lookupKey id st.tasks = some old ∧
      old.schedule = task.schedule ∧ old.command = task.command) ∨
    (valid task.schedule = false ∧
      ∀ eid, lookupKey id st.entryMap = some eid →
        eid ∉ st.cron.entries.map (fun e => e.1))

theorem find?_filter_of_imp {α : Type} (p q : α → Bool) (l : List α)
    (h : ∀ a, p a = true → q a = true) :
    (l.filter q).find? p = l.find? p := by
  induction l with
  | nil => rfl
  | cons a l ih =>
    cases hq : q a with
    | false =>
      have hp : p a = false := by
        cases hpa : p a
        · rfl
        · exact absurd (h a hpa) (by rw [hq]; exact Bool.false_ne_true)
      simp [List.filter_cons, hq, List.find?_cons, hp, ih]
    | true =>
      cases hpa : p a with
      | false => simp [List.filter_cons, hq, List.find?_cons, hpa, ih]
      | true => simp [List.filter_cons, hq, List.find?_cons, hpa]

theorem lookupKey_eraseKey_ne {β : Type} (k k' : Nat) (l : List (Nat × β))
    (h : k ≠ k') : lookupKey k (eraseKey k' l) = lookupKey k l := by
  unfold lookupKey eraseKey
  rw [find?_filter_of_imp]
  intro p hp
  simp only [beq_iff_eq] at hp
  simp only [bne_iff_ne, ne_eq]
  omega

theorem lookupKey_insertKey_self {β : Type} (k : Nat) (v : β)
    (l : List (Nat × β)) : lookupKey k (insertKey k v l) = some v := by
  simp [lookupKey, insertKey, List.find?_cons]

theorem lookupKey_insertKey_ne {β : Type} (k k' : Nat) (v : β)
    (l : List (Nat × β)) (h : k ≠ k') :
    lookupKey k (insertKey k' v l) = lookupKey k l := by
  have hkk : ((k', v).1 == k) = false := by
    simp only [beq_eq_false_iff_ne, ne_eq]
    omega
  unfold insertKey
  unfold lookupKey
  rw [List.find?_cons, hkk]
  exact lookupKey_eraseKey_ne k k' l h

theorem mem_insertKey {β : Type} {q : Nat × β} {k : Nat} {v : β}
    {l : List (Nat × β)} (h : q ∈ insertKey k v l) : q = (k, v) ∨ q ∈ l := by
  rcases List.mem_cons.mp h with h | h
  · exact Or.inl h
  · exact Or.inr (List.mem_of_mem_filter h)

theorem mem_eraseKey {β : Type} {q : Nat × β} {k : Nat} {l : List (Nat × β)}
    (h : q ∈ eraseKey k l) : q ∈ l ∧ q.1 ≠ k := by
  refine ⟨List.mem_of_mem_filter h, ?_⟩
  have := List.of_mem_filter h
  simpa using this

theorem lookupKey_some_mem {β : Type} {k : Nat} {v : β} {l : List (Nat × β)}
    (h : lookupKey k l = some v) : (k, v) ∈ l := by
  unfold lookupKey at h
  cases hf : l.find? (fun p => p.1 == k) with
  | none => rw [hf] at h; exact Option.noConfusion h
  | some p =>
    rw [hf] at h
    have hm := List.mem_of_find?_eq_some hf
    have hp := List.find?_some hf
    simp only [beq_iff_eq] at hp
    simp at h
    have hpv : p = (k, v) := by
      cases p
      simp_all
    rw [← hpv]
    exact hm

theorem cronRemove_not_mem (eid : Nat) (c : CronState)
    (h : eid ∉ c.entries.map (fun e => e.1)) : cronRemove eid c = c := by
  unfold cronRemove
  have he : c.entries.filter (fun e => e.1 != eid) = c.entries := by
    apply List.filter_eq_self.mpr
    intro e hemem
    simp only [bne_iff_ne, ne_eq, decide_eq_true_eq]
    intro heq
    exact h (List.mem_map.mpr ⟨e, hemem, heq⟩)
  rw [he]

theorem not_mem_cronRemove (eid : Nat) (c : CronState) :
    eid ∉ (cronRemove eid c).entries.map (fun e => e.1) := by
  unfold cronRemove
  simp only [List.mem_map]
  rintro ⟨e, he, heq⟩
  have := (List.mem_filter.mp he).2
  rw [heq] at this
  simp at this

theorem removeStep_entryMap_sub (newTasks : Nat → Option AgentTask)
    (st : AgentSched) (p : Nat × Nat) :
    ∀ q ∈ (removeStep newTasks st p).entryMap, q ∈ st.entryMap := by
  intro q hq
  cases hna : newTasks p.1 with
  | none =>
    simp only [removeStep, hna] at hq
    exact (mem_eraseKey hq).1
  | some t =>
    simp only [removeStep, hna] at hq
    exact hq

theorem removePhase_covered_aux (newTasks : Nat → Option AgentTask) :
    ∀ (l : List (Nat × Nat)) (st : AgentSched),
      (∀ q ∈ st.entryMap, newTasks q.1 = none → ∃ p ∈ l, p.1 = q.1) →
      KeysCovered newTasks (l.foldl (removeStep newTasks) st) := by
  intro l
  induction l with
  | nil =>
    intro st h q hq hnone
    obtain ⟨p, hp, _⟩ := h q hq hnone
    exact absurd hp (List.not_mem_nil p)
  | cons a l ih =>
    intro st h
    rw [List.foldl_cons]
    apply ih
    intro q hq hnone
    have hqst : q ∈ st.entryMap := removeStep_entryMap_sub newTasks st a q hq
    obtain ⟨p, hp, hpe⟩ := h q hqst hnone
    rcases List.mem_cons.mp hp with rfl | hpl
    · exfalso
      have hna : newTasks p.1 = none := by rw [hpe]; exact hnone
      simp only [removeStep, hna] at hq
      exact (mem_eraseKey hq).2 hpe.symm
    · exact ⟨p, hpl, hpe⟩

theorem removePhase_covered (newTasks : Nat → Option AgentTask)
    (s : AgentSched) : KeysCovered newTasks (removePhase newTasks s) := by
  apply removePhase_covered_aux
  intro q hq _
  exact ⟨q, hq, rfl⟩

theorem foldl_congr_id {α σ : Type} (f : σ → α → σ) (s : σ) (l : List α)
    (h : ∀ x ∈ l, f s x = s) : l.foldl f s = s := by
  induction l with
  | nil => rfl
  | cons a l ih =>
    rw [List.foldl_cons, h a (List.mem_cons_self a l)]
    exact ih (fun x hx => h x (List.mem_cons_of_mem a hx))

theorem removePhase_id (newTasks : Nat → Option AgentTask) (s : AgentSched)
    (h : KeysCovered newTasks s) : removePhase newTasks s = s := by
  unfold removePhase
  apply foldl_congr_id
  intro p hp
  have hcov := h p hp
  cases hna : newTasks p.1 with
  | none => exact absurd hna hcov
  | some t => simp only [removeStep, hna]

theorem removeStep_entryBound (newTasks : Nat → Option AgentTask)
    (st : AgentSched) (p : Nat × Nat) (h : EntryBound st) :
    EntryBound (removeStep newTasks st p) := by
  cases hna : newTasks p.1 with
  | some t => simp only [removeStep, hna]; exact h
  | none =>
    simp only [removeStep, hna]
    constructor
    · intro q hq
      exact h.1 q (mem_eraseKey hq).1
    · intro e he
      exact h.2 e (List.mem_of_mem_filter he)

theorem foldl_removeStep_entryBound (newTasks : Nat → Option AgentTask) :
    ∀ (l : List (Nat × Nat)) (st : AgentSched), EntryBound st →
      EntryBound (l.foldl (removeStep newTasks) st) := by
  intro l
  induction l with
  | nil => intro st h; exact h
  | cons a l ih =>
    intro st h
    rw [List.foldl_cons]
    exact ih _ (removeStep_entryBound newTasks st a h)

theorem removePhase_entryBound (newTasks : Nat → Option AgentTask)
    (s : AgentSched) (h : EntryBound s) :
    EntryBound (removePhase newTasks s) :=
  foldl_removeStep_entryBound newTasks s.entryMap s h

theorem removeOldEntry_nextId (st : AgentSched) (id : Nat) :
    (removeOldEntry st id).cron.nextId = st.cron.nextId := by
  unfold removeOldEntry
  cases lookupKey id st.entryMap <;> rfl

theorem removeOldEntry_tasks (st : AgentSched) (id : Nat) :
    (removeOldEntry st id).tasks = st.tasks := by
  unfold removeOldEntry
  cases lookupKey id st.entryMap <;> rfl

theorem removeOldEntry_entryMap (st : AgentSched) (id : Nat) :
    (removeOldEntry st id).entryMap = st.entryMap := by
  unfold removeOldEntry
  cases lookupKey id st.entryMap <;> rfl

theorem entryBound_removeOldEntry (st : AgentSched) (id : Nat)
    (h : EntryBound st) : EntryBound (removeOldEntry st id) := by
  cases hl : lookupKey id st.entryMap with
  | none => simp only [removeOldEntry, hl]; exact h
  | some eid =>
    simp only [removeOldEntry, hl]
    exact ⟨fun q hq => h.1 q hq, fun e he => h.2 e (List.mem_of_mem_filter he)⟩

theorem entryBound_scheduleTask (valid : String → Bool) (st : AgentSched)
    (id : Nat) (task : AgentTask) (h : EntryBound st) :
    EntryBound (scheduleTask valid st id task) := by
  have h1 := entryBound_removeOldEntry st id h
  unfold scheduleTask cronAdd
  by_cases hv : valid task.schedule = true
  · rw [if_pos hv]
    constructor
    · intro q hq
      rcases mem_insertKey hq with rfl | hq'
      · show (removeOldEntry st id).cron.nextId < (removeOldEntry st id).cron.nextId + 1
        omega
      · have := h1.1 q hq'
        show q.2 < (removeOldEntry st id).cron.nextId + 1
        omega
    · intro e he
      rcases List.mem_cons.mp he with rfl | he'
      · show (removeOldEntry st id).cron.nextId < (removeOldEntry st id).cron.nextId + 1
        omega
      · have := h1.2 e he'
        show e.1 < (removeOldEntry st id).cron.nextId + 1
        omega
  · rw [if_neg hv]
    exact h1

theorem addStep_entryBound (valid : String → Bool)
    (newTasks : Nat → Option AgentTask) (st : AgentSched) (id : Nat)
    (h : EntryBound st) : EntryBound (addStep valid newTasks st id) := by
  cases hna : newTasks id with
  | none => simp only [addStep, hna]; exact h
  | some task =>
    simp only [addStep, hna]
    by_cases hch : taskChanged st id task = true
    · rw [if_pos hch]
      exact entryBound_scheduleTask valid st id task h
    · rw [if_neg hch]
      exact h

theorem scheduleTask_lookup_tasks_ne (valid : String → Bool) (st : AgentSched)
    (id id' : Nat) (task' : AgentTask) (hne : id ≠ id') :
    lookupKey id (scheduleTask valid st id' task').tasks =
      lookupKey id st.tasks := by
  unfold scheduleTask cronAdd
  by_cases hv : valid task'.schedule = true
  · rw [if_pos hv]
    show lookupKey id (insertKey id' task' (removeOldEntry st id').tasks) = _
    rw [lookupKey_insertKey_ne id id' task' _ hne, removeOldEntry_tasks]
  · rw [if_neg hv]
    show lookupKey id (removeOldEntry st id').tasks = _
    rw [removeOldEntry_tasks]

theorem scheduleTask_lookup_entryMap_ne (valid : String → Bool)
    (st : AgentSched) (id id' : Nat) (task' : AgentTask) (hne : id ≠ id') :
    lookupKey id (scheduleTask valid st id' task').entryMap =
      lookupKey id st.entryMap := by
  unfold scheduleTask cronAdd
  by_cases hv : valid task'.schedule = true
  · rw [if_pos hv]
    show lookupKey id (insertKey id' (removeOldEntry st id').cron.nextId
      (removeOldEntry st id').entryMap) = _
    rw [lookupKey_insertKey_ne id id' _ _ hne, removeOldEntry_entryMap]
  · rw [if_neg hv]
    show lookupKey id (removeOldEntry st id').entryMap = _
    rw [removeOldEntry_entryMap]

theorem scheduleTask_cron_not_mem (valid : String → Bool) (st : AgentSched)
    (id' : Nat) (task' : AgentTask) (eid : Nat)
    (hlt : eid < st.cron.nextId)
    (hnm : eid ∉ st.cron.entries.map (fun e => e.1)) :
    eid ∉ (scheduleTask valid st id' task').cron.entries.map (fun e => e.1) := by
  have hnm1 : eid ∉ (removeOldEntry st id').cron.entries.map (fun e => e.1) := by
    cases hl : lookupKey id' st.entryMap with
    | none => simp only [removeOldEntry, hl]; exact hnm
    | some e0 =>
      simp only [removeOldEntry, hl]
      intro hmem
      apply hnm
      rcases List.mem_map.mp hmem with ⟨e, he, heq⟩
      exact List.mem_map.mpr ⟨e, List.mem_of_mem_filter he, heq⟩
  unfold scheduleTask cronAdd
  by_cases hv : valid task'.schedule = true
  · rw [if_pos hv]
    intro hmem
    rcases List.mem_map.mp hmem with ⟨e, he, heq⟩
    rcases List.mem_cons.mp he with rfl | he'
    · simp only at heq
      rw [removeOldEntry_nextId] at heq
      omega
    · exact hnm1 (List.mem_map.mpr ⟨e, he', heq⟩)
  · rw [if_neg hv]
    exact hnm1

theorem taskChanged_false_iff (st : AgentSched) (id : Nat) (task : AgentTask) :
    taskChanged st id task = false ↔
      ∃ old, lookupKey id st.tasks = some old ∧
        old.schedule = task.schedule ∧ old.command = task.command := by
  cases hl : lookupKey id st.tasks with
  | none => simp [taskChanged, hl]
  | some old =>
    simp only [taskChanged, hl, Bool.or_eq_false_iff, bne_eq_false_iff_eq]
    constructor
    · rintro ⟨h1, h2⟩
      exact ⟨old, rfl, h1, h2⟩
    · rintro ⟨o, ho, h1, h2⟩
      rw [Option.some.injEq] at ho
      rw [← ho] at h1 h2
      exact ⟨h1, h2⟩

theorem addStep_stepDone_self (valid : String → Bool)
    (newTasks : Nat → Option AgentTask) (st : AgentSched) (id : Nat) :
    StepDone valid newTasks id (addStep valid newTasks st id) := by
  cases hna : newTasks id with
  | none => simp only [StepDone, hna]
  | some task =>
    simp only [StepDone, addStep, hna]
    by_cases hch : taskChanged st id task = true
    · rw [if_pos hch]
      by_cases hv : valid task.schedule = true
      · left
        refine ⟨task, ?_, rfl, rfl⟩
        unfold scheduleTask cronAdd
        rw [if_pos hv]
        exact lookupKey_insertKey_self id task _
      · right
        have hv' : valid task.schedule = false := by
          cases hvv : valid task.schedule with
          | false => rfl
          | true => exact absurd hvv hv
        refine ⟨hv', ?_⟩
        intro eid heq
        unfold scheduleTask cronAdd at heq ⊢
        rw [if_neg hv] at heq ⊢
        cases hl : lookupKey id st.entryMap with
        | none =>
          have hrme : lookupKey id (removeOldEntry st id).entryMap = none := by
            rw [removeOldEntry_entryMap]
            exact hl
          rw [hrme] at heq
          exact Option.noConfusion heq
        | some eid0 =>
          have hrme : lookupKey id (removeOldEntry st id).entryMap = some eid0 := by
            rw [removeOldEntry_entryMap]
            exact hl
          rw [hrme, Option.some.injEq] at heq
          rw [← heq]
          show eid0 ∉ (removeOldEntry st id).cron.entries.map (fun e => e.1)
          simp only [removeOldEntry, hl]
          exact not_mem_cronRemove eid0 st.cron
    · rw [if_neg hch]
      left
      have hch' : taskChanged st id task = false := by
        cases hcc : taskChanged st id task with
        | false => rfl
        | true => exact absurd hcc hch
      exact (taskChanged_false_iff st id task).mp hch'

theorem addStep_stepDone_other (valid : String → Bool)
    (newTasks : Nat → Option AgentTask) (st : AgentSched) (id id' : Nat)
    (hne : id ≠ id') (hb : EntryBound st)
    (hd : StepDone valid newTasks id st) :
    StepDone valid newTasks id (addStep valid newTasks st id') := by
  cases hna : newTasks id with
  | none => simp only [StepDone, hna]
  | some task =>
    simp only [StepDone, hna] at hd ⊢
    cases hna' : newTasks id' with
    | none => simp only [addStep, hna']; exact hd
    | some task' =>
      simp only [addStep, hna']
      by_cases hch : taskChanged st id' task' = true
      · rw [if_pos hch]
        rcases hd with ⟨old, hl, hs, hc⟩ | ⟨hv, hcron⟩
        · left
          refine ⟨old, ?_, hs, hc⟩
          rw [scheduleTask_lookup_tasks_ne valid st id id' task' hne]
          exact hl
        · right
          refine ⟨hv, ?_⟩
          intro eid heq
          rw [scheduleTask_lookup_entryMap_ne valid st id id' task' hne] at heq
          have hmem := lookupKey_some_mem heq
          have hlt : eid < st.cron.nextId := hb.1 (id, eid) hmem
          exact scheduleTask_cron_not_mem valid st id' task' eid hlt (hcron eid heq)
      · rw [if_neg hch]
        exact hd

theorem scheduleTask_entryMap_mem (valid : String → Bool) (st : AgentSched)
    (id : Nat) (task : AgentTask) :
    ∀ q ∈ (scheduleTask valid st id task).entryMap, q.1 = id ∨ q ∈ st.entryMap := by
  intro q hq
  unfold scheduleTask cronAdd at hq
  by_cases hv : valid task.schedule = true
  · rw [if_pos hv] at hq
    rcases mem_insertKey hq with rfl | hq'
    · exact Or.inl rfl
    · have hq2 : q ∈ st.entryMap := by
        rw [← removeOldEntry_entryMap st id]
        exact hq'
      exact Or.inr hq2
  · rw [if_neg hv] at hq
    have hq2 : q ∈ st.entryMap := by
      rw [← removeOldEntry_entryMap st id]
      exact hq
    exact Or.inr hq2

theorem addStep_keysCovered (valid : String → Bool)
    (newTasks : Nat → Option AgentTask) (st : AgentSched) (id : Nat)
    (h : KeysCovered newTasks st) :
    KeysCovered newTasks (addStep valid newTasks st id) := by
  cases hna : newTasks id with
  | none => simp only [addStep, hna]; exact h
  | some task =>
    simp only [addStep, hna]
    by_cases hch : taskChanged st id task = true
    · rw [if_pos hch]
      intro q hq
      rcases scheduleTask_entryMap_mem valid st id task q hq with heq | hmem
      · rw [heq, hna]
        exact fun hc => Option.noConfusion hc
      · exact h q hmem
    · rw [if_neg hch]
      exact h

theorem foldl_addStep_preserve (valid : String → Bool)
    (newTasks : Nat → Option AgentTask) :
    ∀ (ids : List Nat) (st : AgentSched) (id : Nat), id ∉ ids →
      EntryBound st → StepDone valid newTasks id st →
      StepDone valid newTasks id (ids.foldl (addStep valid newTasks) st) := by
  intro ids
  induction ids with
  | nil => intro st id _ _ hd; exact hd
  | cons a ids ih =>
    intro st id hnm hb hd
    rw [List.foldl_cons]
    have hne : id ≠ a := fun h => hnm (by rw [h]; exact List.mem_cons_self a ids)
    exact ih _ id (fun h => hnm (List.mem_cons_of_mem a h))
      (addStep_entryBound valid newTasks st a hb)
      (addStep_stepDone_other valid newTasks st id a hne hb hd)

theorem foldl_addStep_all (valid : String → Bool)
    (newTasks : Nat → Option AgentTask) :
    ∀ (ids : List Nat) (st : AgentSched), ids.Nodup → EntryBound st →
      KeysCovered newTasks st →
      EntryBound (ids.foldl (addStep valid newTasks) st) ∧
      KeysCovered newTasks (ids.foldl (addStep valid newTasks) st) ∧
      (∀ id ∈ ids, StepDone valid newTasks id
        (ids.foldl (addStep valid newTasks) st)) := by
  intro ids
  induction ids with
  | nil =>
    intro st _ hb hk
    exact ⟨hb, hk, fun id h => absurd h (List.not_mem_nil id)⟩
  | cons a ids ih =>
    intro st hnd hb hk
    rw [List.foldl_cons]
    have hnd' : ids.Nodup := (List.nodup_cons.mp hnd).2
    have hnm : a ∉ ids := (List.nodup_cons.mp hnd).1
    have hb1 := addStep_entryBound valid newTasks st a hb
    have hk1 := addStep_keysCovered valid newTasks st a hk
    obtain ⟨hbF, hkF, hdF⟩ := ih (addStep valid newTasks st a) hnd' hb1 hk1
    refine ⟨hbF, hkF, ?_⟩
    intro id hid
    rcases List.mem_cons.mp hid with rfl | hid'
    · exact foldl_addStep_preserve valid newTasks ids
        (addStep valid newTasks st id) id hnm hb1
        (addStep_stepDone_self valid newTasks st id)
    · exact hdF id hid'

theorem addStep_id_of_stepDone (valid : String → Bool)
    (newTasks : Nat → Option AgentTask) (st : AgentSched) (id : Nat)
    (hd : StepDone valid newTasks id st) :
    addStep valid newTasks st id = st := by
  cases hna : newTasks id with
  | none => simp only [addStep, hna]
  | some task =>
    simp only [StepDone, hna] at hd
    simp only [addStep, hna]
    rcases hd with ⟨old, hl, hs, hc⟩ | ⟨hv, hcron⟩
    · have hch : taskChanged st id task = false :=
        (taskChanged_false_iff st id task).mpr ⟨old, hl, hs, hc⟩
      rw [if_neg (show ¬ taskChanged st id task = true by rw [hch]; exact Bool.false_ne_true)]
    · by_cases hch : taskChanged st id task = true
      · rw [if_pos hch]
        unfold scheduleTask cronAdd
        rw [if_neg (show ¬ valid task.schedule = true by rw [hv]; exact Bool.false_ne_true)]
        show removeOldEntry st id = st
        cases hl : lookupKey id st.entryMap with
        | none => simp only [removeOldEntry, hl]
        | some eid =>
          simp only [removeOldEntry, hl]
          have hrem : cronRemove eid st.cron = st.cron :=
            cronRemove_not_mem eid st.cron (hcron eid hl)
          rw [hrem]
      · rw [if_neg hch]

/-- C9: applying the same `tasks` frame twice through the agent's
`updateTasks` is idempotent — after the second application the tasks map,
the entry map and the set of scheduled cron entries are unchanged from
their state after the first application, for every prior schedule state
whose entry ids respect the scheduler's id discipline. -/
theorem c9_updateTasks_idempotent (valid : String → Bool)
    (frame : List AgentTask) (s : AgentSched) (h : EntryBound s) :
    updateTasks valid frame (updateTasks valid frame s) =
      updateTasks valid frame s := by
  unfold updateTasks
  have hb0 := removePhase_entryBound (buildNewTasks frame) s h
  have hk0 := removePhase_covered (buildNewTasks frame) s
  have hnd : (frameIds frame).Nodup := List.nodup_dedup _
  obtain ⟨hb1, hk1, hd1⟩ := foldl_addStep_all valid (buildNewTasks frame)
    (frameIds frame) (removePhase (buildNewTasks frame) s) hnd hb0 hk0
  rw [removePhase_id (buildNewTasks frame) _ hk1]
  apply foldl_congr_id
  intro id hid
  exact addStep_id_of_stepDone valid (buildNewTasks frame) _ id (hd1 id hid)

def c9Valid : String → Bool := fun spec => spec != "not a cron expr"

def c9Frame : List AgentTask :=
  [⟨1, "backup", "run backup", "0 2 * * *", "", 30, "", "", true⟩,
   ⟨2, "broken", "run broken", "not a cron expr", "", 30, "", "", true⟩,
   ⟨1, "backup2", "run backup", "0 2 * * *", "", 30, "", "", true⟩]

def c9State : AgentSched :=
  ⟨[(7, ⟨7, "old", "old cmd", "* * * * *", "", 30, "", "", true⟩)],
   [(7, 0)], ⟨1, [(0, "* * * * *")]⟩⟩

theorem c9_witness :
    EntryBound c9State ∧
    updateTasks c9Valid c9Frame (updateTasks c9Valid c9Frame c9State) =
      updateTasks c9Valid c9Frame c9State := by
  have hb : EntryBound c9State := by
    constructor
    · intro p hp
      simp only [c9State, List.mem_singleton] at hp
      rw [hp]
      decide
    · intro e he
      simp only [c9State, List.mem_singleton] at he
      rw [he]
      decide
  exact ⟨hb, c9_updateTasks_idempotent c9Valid c9Frame c9State hb⟩

end Baihu
